import Mathlib

/-!
# HTTP/2 vs HTTP/3 benchmark harness: statistics and measurement loops

A shallow embedding of the Go benchmark clients under `src/client/`
(`benchmark.go`, `router_benchmark.go`, `scheduler_analysis.go`,
`bandwidth_test.go`, `http3_client.go`) and theorems about them.

Conventions of the embedding.

* `time.Duration`, `int64` and `int` values are integers (`Int`); every
  addition and multiplication the Go code performs on them is wrapped to the
  signed 64-bit range by `wrap64`, every division is Go's truncating division
  (`Int.tdiv`).
* A run-time panic (integer division by zero, index out of range) is an
  `Except.error`; a function that returns normally yields `Except.ok`.
* The network is an oracle: the outcome of the `i`-th measured `client.Get`
  (zero-based loop index) is `get i : Trial`.
* `sort.Slice` with the comparison `sorted[i] < sorted[j]` is a library call;
  it is taken by its contract (the slice is rearranged into ascending order),
  and on integers that result is unique.  It is computed here by insertion.
* `percentileF64` is the function `percentile` with its `float64` argument,
  over a model of binary64 arithmetic (`F64`).  `percentile` is the same
  function at the whole-number percentiles its callers pass (50, 90, 95, 99),
  with the index computed in integers; the two are proved to agree there
  (`percentileF64_ofInt`) for slices of fewer than `2^53 / 100` durations.
* Printed `float64` values that are not converted back to integers
  (percentages, throughput) are exact rationals.
-/

namespace Benchmark

/-! ## Machine integers and panics -/

/-- Two's-complement wrap of an integer to the signed 64-bit range. -/
def wrap64 (x : Int) : Int :=
  (x + 9223372036854775808) % 18446744073709551616 - 9223372036854775808

/-- The run-time panics the modelled code can raise. -/
inductive Panic where
  | divideByZero
  | indexOutOfRange
  deriving DecidableEq, Repr

deriving instance DecidableEq for Except

/-- Go slice indexing `xs[i]` with an `int` index: panics outside `[0, len)`. -/
def index (xs : List Int) (i : Int) : Except Panic Int :=
  if 0 ≤ i ∧ i < (xs.length : Int) then .ok (xs.getD i.toNat 0)
  else .error Panic.indexOutOfRange

/-- Go integer division `a / b` on `int64`: truncates toward zero, panics on a
zero divisor. -/
def goDiv (a b : Int) : Except Panic Int :=
  if b = 0 then .error Panic.divideByZero else .ok (wrap64 (Int.tdiv a b))

/-! ## `float64` arithmetic

The one place where the code computes in `float64` and converts the result
back to `int` is the index of `percentile`.  The model below is IEEE-754
binary64 with round-to-nearest, ties-to-even: a finite value is
`(-1)^neg * m * 2^e`, and every operation rounds the exact result to the
nearest value with a 53-bit significand and an exponent of at least `-1074`,
overflowing to an infinity from `2^1024` on. -/

/-- An IEEE-754 binary64 value: a finite `(-1)^neg * m * 2^e`, an infinity or a
NaN.  The values of type `float64` are the finite ones with `m < 2^53` and
`-1074 ≤ e ≤ 971`, the infinities and NaN; the operations below return only
such values. -/
inductive F64 where
  | finite (neg : Bool) (m : Nat) (e : Int)
  | inf (neg : Bool)
  | nan
  deriving DecidableEq, Repr

/-- Nearest integer to `a / b`, ties to the even one. -/
def roundHalfEven (a b : Nat) : Nat :=
  if 2 * (a % b) < b then a / b
  else if b < 2 * (a % b) then a / b + 1
  else if (a / b) % 2 = 0 then a / b else a / b + 1

/-- Position of the leading bit of `n`, found by halving at most `fuel` times. -/
def log2Fuel : Nat → Nat → Nat
  | 0, _ => 0
  | fuel + 1, n => if n < 2 then 0 else log2Fuel fuel (n / 2) + 1

/-- The integer `l` with `2^l ≤ num / den < 2^(l+1)`, for positive `num`, `den`. -/
def floorLog2 (num den : Nat) : Int :=
  let l : Int := (log2Fuel num num : Int) - (log2Fuel den den : Int)
  if 0 ≤ l then (if den * 2 ^ l.toNat ≤ num then l else l - 1)
  else (if den ≤ num * 2 ^ (-l).toNat then l else l - 1)

/-- The binary64 value nearest to `(-1)^neg * num / den` (ties to even). -/
def F64.round (neg : Bool) (num den : Nat) : F64 :=
  if num = 0 then .finite neg 0 0
  else
    let e : Int := max (floorLog2 num den - 52) (-1074)
    let sig : Nat :=
      if 0 ≤ e then roundHalfEven num (den * 2 ^ e.toNat)
      else roundHalfEven (num * 2 ^ (-e).toNat) den
    if 971 < e ∨ (e = 971 ∧ 9007199254740992 ≤ sig) then .inf neg else .finite neg sig e

/-- The conversion `float64(i)` of an integer, also the value of a whole-number
constant such as `100.0`. -/
def F64.ofInt (i : Int) : F64 := F64.round (decide (i < 0)) i.natAbs 1

/-- The product `x * y` in `float64`. -/
def F64.mul : F64 → F64 → F64
  | .finite n1 m1 e1, .finite n2 m2 e2 =>
    if 0 ≤ e1 + e2 then F64.round (n1 != n2) (m1 * m2 * 2 ^ (e1 + e2).toNat) 1
    else F64.round (n1 != n2) (m1 * m2) (2 ^ (-(e1 + e2)).toNat)
  | .finite n1 m1 _, .inf n2 => if m1 = 0 then .nan else .inf (n1 != n2)
  | .inf n1, .finite n2 m2 _ => if m2 = 0 then .nan else .inf (n1 != n2)
  | .inf n1, .inf n2 => .inf (n1 != n2)
  | .nan, _ => .nan
  | _, .nan => .nan

/-- The quotient `x / y` in `float64`. -/
def F64.div : F64 → F64 → F64
  | .finite n1 m1 e1, .finite n2 m2 e2 =>
    if m2 = 0 then (if m1 = 0 then .nan else .inf (n1 != n2))
    else if 0 ≤ e1 - e2 then F64.round (n1 != n2) (m1 * 2 ^ (e1 - e2).toNat) m2
    else F64.round (n1 != n2) m1 (m2 * 2 ^ (-(e1 - e2)).toNat)
  | .finite n1 _ _, .inf n2 => .finite (n1 != n2) 0 0
  | .inf n1, .finite n2 _ _ => .inf (n1 != n2)
  | .inf _, .inf _ => .nan
  | .nan, _ => .nan
  | _, .nan => .nan

/-- The conversion `int(x)` of a `float64`: the value truncated toward zero when
that fits `int64`.  Go leaves the result implementation-dependent otherwise
(a quotient beyond `int64`, an infinity, a NaN); the value taken here is the
one of amd64, `-2^63`. -/
def F64.toInt64 : F64 → Int
  | .finite neg m e =>
    let t : Nat := if 0 ≤ e then m * 2 ^ e.toNat else m / 2 ^ (-e).toNat
    let v : Int := if neg then -(t : Int) else (t : Int)
    if -9223372036854775808 ≤ v ∧ v < 9223372036854775808 then v else -9223372036854775808
  | _ => -9223372036854775808

/-- The expression `int(float64(n) * p / 100.0)` of `percentile`, line 39. -/
def floatIndex (n : Int) (p : F64) : Int :=
  F64.toInt64 (F64.div (F64.mul (F64.ofInt n) p) (F64.ofInt 100))

/-- The inequality `m * 2^e ≤ b` between a finite magnitude and a natural number. -/
def F64.magLE (m : Nat) (e : Int) (b : Nat) : Prop :=
  if 0 ≤ e then m * 2 ^ e.toNat ≤ b else m ≤ b * 2 ^ (-e).toNat

instance F64.decidableMagLE (m : Nat) (e : Int) (b : Nat) : Decidable (F64.magLE m e b) := by
  unfold F64.magLE
  infer_instance

/-! ## Sorting -/

/-- The effect of `sort.Slice(sorted, func(i, j) bool { return sorted[i] < sorted[j] })`
on a copy of `data`: the elements in ascending order. -/
def sortSlice (data : List Int) : List Int :=
  data.insertionSort (· ≤ ·)

/-! ## `median` and `percentile` (identical in benchmark.go, router_benchmark.go
and scheduler_analysis.go) -/

/-- The function `median` of benchmark.go, lines 18-30. -/
def median (data : List Int) : Except Panic Int :=
  let sorted := sortSlice data
  let n : Int := sorted.length
  if n % 2 = 0 then do
    let a ← index sorted (n / 2 - 1)
    let b ← index sorted (n / 2)
    goDiv (wrap64 (a + b)) 2
  else
    index sorted (n / 2)

/-- The function `percentile` of benchmark.go, lines 32-44, at a whole-number
percentile `p`, as every caller passes it: the product `float64(len) * p` is
then an integer and `int(.. / 100.0)` is its truncated quotient by 100, computed
here in integers (see `percentileF64_ofInt`). -/
def percentile (data : List Int) (p : Int) : Except Panic Int :=
  let sorted := sortSlice data
  let n : Int := sorted.length
  let index0 : Int := Int.tdiv (n * p) 100
  let index1 : Int := if index0 ≥ n then n - 1 else index0
  index sorted index1

/-- The function `percentile` of benchmark.go, lines 32-44, with its `float64`
argument `p`: the index is computed in `float64`, converted to `int`, and
clamped on the high side only. -/
def percentileF64 (data : List Int) (p : F64) : Except Panic Int :=
  let sorted := sortSlice data
  let n : Int := sorted.length
  let index0 : Int := floatIndex n p
  let index1 : Int := if index0 ≥ n then n - 1 else index0
  index sorted index1

/-! ## The network oracle -/

/-- What one measured trial observes.  `err` is whether `client.Get` returned a
non-nil error, `elapsed` is the value `time.Since(start)` yields where the
function reads the clock, `copyErr` and `written` are the two results of
`io.Copy(io.Discard, resp.Body)`, and the remaining fields are the
`Nvcsw`/`Nivcsw` counters of the two `syscall.Getrusage` snapshots. -/
structure Trial where
  err : Bool
  elapsed : Int
  copyErr : Bool
  written : Int
  nvcswBefore : Int
  nvcswAfter : Int
  nivcswBefore : Int
  nivcswAfter : Int
  deriving DecidableEq, Repr

/-- A trial whose request and body drain both succeed. -/
def Trial.success (elapsed written : Int) : Trial :=
  ⟨false, elapsed, false, written, 0, 0, 0, 0⟩

/-- A trial whose `client.Get` fails after `elapsed` nanoseconds. -/
def Trial.connError (elapsed : Int) : Trial :=
  ⟨true, elapsed, false, 0, 0, 0, 0, 0⟩

/-- A trial whose request succeeds but whose body drain fails after `written`
bytes. -/
def Trial.readError (elapsed written : Int) : Trial :=
  ⟨false, elapsed, true, written, 0, 0, 0, 0⟩

/-! ## benchmark.go: `testHTTP2` / `testHTTP3` -/

/-- The variables the measurement loop of benchmark.go updates (lines 82-105),
with two observers: `requests` counts the `client.Get` calls issued and
`errorLog` lists the trial numbers `i+1` passed to `log.Printf` on error. -/
structure LoopState where
  durations : List Int
  totalDuration : Int
  requests : Nat
  errorLog : List Nat
  deriving DecidableEq, Repr

/-- State before the measurement loop: `var durations`, `var totalDuration`. -/
def LoopState.init : LoopState := ⟨[], 0, 0, []⟩

/-- One iteration of the loop body of benchmark.go, lines 87-104 (the
`if i < 10` branch only prints). The result of `io.Copy` is not inspected. -/
def loopBody (st : LoopState) (i : Nat) (t : Trial) : LoopState :=
  let st := { st with requests := st.requests + 1 }
  if t.err then
    { st with errorLog := st.errorLog ++ [i + 1] }
  else
    { st with durations := st.durations ++ [t.elapsed]
              totalDuration := wrap64 (st.totalDuration + t.elapsed) }

/-- The loop `for i := 0; i < iterations; i++` of benchmark.go, lines 86-105. -/
def measurementLoop (iterations : Nat) (get : Nat → Trial) : LoopState :=
  (List.range iterations).foldl (fun st i => loopBody st i (get i)) LoopState.init

/-- The loop `for i := 0; i < top20Count; i++ { top20Sum += sorted[i] }`. -/
def sumFirst (sorted : List Int) : Nat → Except Panic Int
  | 0 => .ok 0
  | k + 1 => do
    let acc ← sumFirst sorted k
    let x ← index sorted k
    .ok (wrap64 (acc + x))

/-- The value of `top20Count` (benchmark.go, lines 132-135). -/
def top20Count (len : Nat) : Nat :=
  if len / 5 = 0 then 1 else len / 5

/-- The trimmed mean `top20Avg` (benchmark.go, lines 126-140). -/
def top20Avg (durations : List Int) : Except Panic Int := do
  let sorted := sortSlice durations
  let k := top20Count sorted.length
  let top20Sum ← sumFirst sorted k
  goDiv top20Sum k

/-- The loop of benchmark.go, lines 112-119, from `(minDuration, maxDuration)`. -/
def minMax (durations : List Int) (start : Int × Int) : Int × Int :=
  durations.foldl
    (fun mm d => (if d < mm.1 then d else mm.1, if d > mm.2 then d else mm.2)) start

/-- The loop of benchmark.go, lines 154-158. -/
def countOutliers (durations : List Int) (threshold : Int) : Nat :=
  durations.foldl (fun outliers d => if d > threshold then outliers + 1 else outliers) 0

/-- The values printed by `testHTTP2` / `testHTTP3` of benchmark.go. -/
structure Summary where
  avgDuration : Int
  medianDuration : Int
  top20Avg : Int
  p90 : Int
  p95 : Int
  p99 : Int
  minDuration : Int
  maxDuration : Int
  outliers : Nat
  deriving DecidableEq, Repr

/-- The statistics of benchmark.go, lines 107-158, from the loop's variables. -/
def statistics (st : LoopState) : Except Panic Summary := do
  let avgDuration ← goDiv st.totalDuration st.durations.length
  let medianDuration ← median st.durations
  let first ← index st.durations 0
  let mm := minMax st.durations (first, first)
  let _ ← percentile st.durations 50
  let p90 ← percentile st.durations 90
  let p95 ← percentile st.durations 95
  let p99 ← percentile st.durations 99
  let top20 ← top20Avg st.durations
  let threshold := wrap64 (avgDuration * 3)
  let outliers := countOutliers st.durations threshold
  .ok ⟨avgDuration, medianDuration, top20, p90, p95, p99, mm.1, mm.2, outliers⟩

/-- The function `testHTTP2` of benchmark.go (the warm-up loop discards its
results and touches none of the measured variables). -/
def testHTTP2 (iterations : Nat) (get : Nat → Trial) : Except Panic Summary :=
  statistics (measurementLoop iterations get)

/-- The function `testHTTP3` of benchmark.go: the same loop and statistics over
the HTTP/3 round tripper. -/
def testHTTP3 (iterations : Nat) (get : Nat → Trial) : Except Panic Summary :=
  statistics (measurementLoop iterations get)

/-! ## router_benchmark.go: `testHTTP2` / `testHTTP3` -/

/-- The values printed by `testHTTP2` / `testHTTP3` of router_benchmark.go. -/
structure RouterSummary where
  avgDuration : Int
  medianDuration : Int
  top20Avg : Int
  p90 : Int
  p95 : Int
  p99 : Int
  deriving DecidableEq, Repr

/-- The statistics of router_benchmark.go, lines 108-134; `none` is the early
return of lines 108-111. -/
def routerStatistics (st : LoopState) : Except Panic (Option RouterSummary) :=
  if st.durations.length = 0 then .ok none
  else do
    let avgDuration ← goDiv st.totalDuration st.durations.length
    let medianDuration ← median st.durations
    let top20 ← top20Avg st.durations
    let p90 ← percentile st.durations 90
    let p95 ← percentile st.durations 95
    let p99 ← percentile st.durations 99
    .ok (some ⟨avgDuration, medianDuration, top20, p90, p95, p99⟩)

/-- The function `testHTTP2` of router_benchmark.go; its measurement loop (lines
87-106) is that of benchmark.go. -/
def Router.testHTTP2 (iterations : Nat) (get : Nat → Trial) :
    Except Panic (Option RouterSummary) :=
  routerStatistics (measurementLoop iterations get)

/-- The function `testHTTP3` of router_benchmark.go: the same loop and statistics
over the HTTP/3 round tripper. -/
def Router.testHTTP3 (iterations : Nat) (get : Nat → Trial) :
    Except Panic (Option RouterSummary) :=
  routerStatistics (measurementLoop iterations get)

/-! ## scheduler_analysis.go -/

/-- The variables the measurement loop of scheduler_analysis.go updates (lines
94-132), with the observers `requests` and `errorLog` as in `LoopState`. -/
structure SchedState where
  durations : List Int
  totalDuration : Int
  schedulingDelays : List Int
  requests : Nat
  errorLog : List Nat
  deriving DecidableEq, Repr

/-- State before the loop of scheduler_analysis.go. -/
def SchedState.init : SchedState := ⟨[], 0, [], 0, []⟩

/-- The value `involuntaryCtx := afterStats.Nivcsw - beforeStats.Nivcsw`. -/
def involuntaryCtx (t : Trial) : Int :=
  wrap64 (t.nivcswAfter - t.nivcswBefore)

/-- One iteration of the loop body of scheduler_analysis.go, lines 100-131. -/
def schedLoopBody (st : SchedState) (i : Nat) (t : Trial) : SchedState :=
  let st := { st with requests := st.requests + 1 }
  if t.err then
    { st with errorLog := st.errorLog ++ [i + 1] }
  else
    let st := { st with durations := st.durations ++ [t.elapsed]
                        totalDuration := wrap64 (st.totalDuration + t.elapsed) }
    if involuntaryCtx t > 0 then
      { st with schedulingDelays := st.schedulingDelays ++ [t.elapsed] }
    else st

/-- The loop of scheduler_analysis.go, lines 99-132. -/
def schedLoop (iterations : Nat) (get : Nat → Trial) : SchedState :=
  (List.range iterations).foldl (fun st i => schedLoopBody st i (get i)) SchedState.init

/-- The values printed by `testHTTP2WithSchedulerAnalysis`; the last line prints
`schedulingDelayCount`, `iterations` and `schedulingDelayPercent`. -/
structure SchedSummary where
  avgDuration : Int
  medianDuration : Int
  top20Avg : Int
  p90 : Int
  p95 : Int
  p99 : Int
  schedulingDelayCount : Nat
  iterations : Nat
  schedulingDelayPercent : ℚ
  deriving DecidableEq

/-- The statistics of scheduler_analysis.go, lines 134-165.  The percentage is
`float64(len(schedulingDelays))/float64(iterations)*100`, taken exactly. -/
def schedStatistics (iterations : Nat) (st : SchedState) : Except Panic SchedSummary := do
  let avgDuration ← goDiv st.totalDuration st.durations.length
  let medianDuration ← median st.durations
  let top20 ← top20Avg st.durations
  let p90 ← percentile st.durations 90
  let p95 ← percentile st.durations 95
  let p99 ← percentile st.durations 99
  let count := st.schedulingDelays.length
  .ok ⟨avgDuration, medianDuration, top20, p90, p95, p99, count, iterations,
    (count : ℚ) / (iterations : ℚ) * 100⟩

/-- The function `testHTTP2WithSchedulerAnalysis` of scheduler_analysis.go. -/
def testHTTP2WithSchedulerAnalysis (iterations : Nat) (get : Nat → Trial) :
    Except Panic SchedSummary :=
  schedStatistics iterations (schedLoop iterations get)

/-- The function `testHTTP3WithSchedulerAnalysis` of scheduler_analysis.go: the
same loop and statistics over the HTTP/3 round tripper. -/
def testHTTP3WithSchedulerAnalysis (iterations : Nat) (get : Nat → Trial) :
    Except Panic SchedSummary :=
  schedStatistics iterations (schedLoop iterations get)

/-! ## bandwidth_test.go: `testBandwidth` -/

/-- The method `Duration.Seconds`, taken exactly. -/
def seconds (d : Int) : ℚ := (d : ℚ) / 1000000000

/-- The expression `float64(bytes) / d.Seconds() / 1024`, taken exactly; `none`
stands for the non-finite value (`+Inf` or `NaN`) the division by a zero
duration produces. -/
def kbPerSecond (bytes d : Int) : Option ℚ :=
  if d = 0 then none else some ((bytes : ℚ) / seconds d / 1024)

/-- The variables the loop of `testBandwidth` updates (lines 26-56), with the
observers `connErrors` and `readErrors` counting the two `log.Printf` calls. -/
structure BandwidthState where
  totalDuration : Int
  totalBytes : Int
  connErrors : Nat
  readErrors : Nat
  deriving DecidableEq, Repr

/-- State before the loop of `testBandwidth`. -/
def BandwidthState.init : BandwidthState := ⟨0, 0, 0, 0⟩

/-- One iteration of the loop body of `testBandwidth`, lines 32-55. -/
def bandwidthBody (st : BandwidthState) (t : Trial) : BandwidthState :=
  if t.err then
    { st with connErrors := st.connErrors + 1 }
  else if t.copyErr then
    { st with readErrors := st.readErrors + 1 }
  else
    { st with totalDuration := wrap64 (st.totalDuration + t.elapsed)
              totalBytes := wrap64 (st.totalBytes + t.written) }

/-- The loop of `testBandwidth`, lines 31-56. -/
def bandwidthLoop (iterations : Nat) (get : Nat → Trial) : BandwidthState :=
  (List.range iterations).foldl (fun st i => bandwidthBody st (get i)) BandwidthState.init

/-- The values printed by `testBandwidth`. -/
structure BandwidthReport where
  avgDuration : Int
  totalBytes : Int
  avgThroughput : Option ℚ
  deriving DecidableEq

/-- The function `testBandwidth` of bandwidth_test.go, lines 26-64. -/
def testBandwidth (iterations : Nat) (get : Nat → Trial) : Except Panic BandwidthReport := do
  let st := bandwidthLoop iterations get
  let avgDuration ← goDiv st.totalDuration iterations
  let avgThroughput := kbPerSecond st.totalBytes st.totalDuration
  .ok ⟨avgDuration, st.totalBytes, avgThroughput⟩

/-! ## http3_client.go: `main` -/

/-- The variables the loop of http3_client.go updates (lines 37-67). -/
structure ClientState where
  totalTime : Int
  totalBytes : Int
  successCount : Nat
  deriving DecidableEq, Repr

/-- State before the loop of http3_client.go. -/
def ClientState.init : ClientState := ⟨0, 0, 0⟩

/-- One iteration of the loop body of http3_client.go, lines 42-66. -/
def clientBody (st : ClientState) (t : Trial) : ClientState :=
  if t.err then st
  else if t.copyErr then st
  else
    { totalTime := wrap64 (st.totalTime + t.elapsed)
      totalBytes := wrap64 (st.totalBytes + t.written)
      successCount := st.successCount + 1 }

/-- The loop `for i := 1; i <= iterations; i++` of http3_client.go; trial `i`
observes `get (i - 1)`. -/
def clientLoop (iterations : Nat) (get : Nat → Trial) : ClientState :=
  (List.range iterations).foldl (fun st i => clientBody st (get i)) ClientState.init

/-- The values printed by http3_client.go after the loop. -/
structure ClientReport where
  successCount : Nat
  iterations : Nat
  avgTime : ℚ
  avgSpeed : Option ℚ
  totalBytes : Int
  deriving DecidableEq

/-- The function `main` of http3_client.go from the loop on (lines 41-81); `none`
is the branch that prints the all-failed message and calls `os.Exit(1)`. -/
def Http3Client.main (iterations : Nat) (get : Nat → Trial) : Option ClientReport :=
  let st := clientLoop iterations get
  if st.successCount > 0 then
    some ⟨st.successCount, iterations, seconds st.totalTime / (st.successCount : ℚ),
      kbPerSecond st.totalBytes st.totalTime, st.totalBytes⟩
  else none

/-! ## Vocabulary for the statements -/

/-- The indices of the trials whose `client.Get` succeeded, in trial order. -/
def succeeded (iterations : Nat) (get : Nat → Trial) : List Nat :=
  (List.range iterations).filter (fun i => !(get i).err)

/-- The indices of the trials whose `client.Get` failed, in trial order. -/
def failed (iterations : Nat) (get : Nat → Trial) : List Nat :=
  (List.range iterations).filter (fun i => (get i).err)

/-- The durations `1 ms, 2 ms, ..., 100 ms` in nanoseconds. -/
def oneToHundredMs : List Int :=
  (List.range 100).map (fun i => ((i : Int) + 1) * 1000000)

/-- An oracle under which every trial succeeds, trial `i` taking `data[i]`. -/
def allSucceed (data : List Int) : Nat → Trial :=
  fun i => Trial.success (data.getD i 0) 0

/-- The indices of the successful trials during which the process was
preempted (`involuntaryCtx > 0`), in trial order. -/
def preemptedSucceeded (iterations : Nat) (get : Nat → Trial) : List Nat :=
  (List.range iterations).filter (fun i => !(get i).err && decide (involuntaryCtx (get i) > 0))

/-- The indices of all trials, failed ones included, during which the process
was preempted. -/
def preempted (iterations : Nat) (get : Nat → Trial) : List Nat :=
  (List.range iterations).filter (fun i => decide (involuntaryCtx (get i) > 0))

/-- Trials 1-2 and 4-10 succeed after `100 + i` ns; trial 3 (index 2) fails
with a connection error after 999 ns. -/
def thirdOfTenFails : Nat → Trial :=
  fun i => if i = 2 then Trial.connError 999 else Trial.success (100 + i) 0

/-- Trials 1 and 3-5 succeed after `100 + i` ns; trial 2 (index 1) fails (a
timeout surfaces as an error of `client.Get`) after 999 ns. -/
def secondOfFiveFails : Nat → Trial :=
  fun i => if i = 1 then Trial.connError 999 else Trial.success (100 + i) 0

/-- The indices of the trials whose request and body drain both succeeded, in
trial order. -/
def completed (iterations : Nat) (get : Nat → Trial) : List Nat :=
  (List.range iterations).filter (fun i => !(get i).err && !(get i).copyErr)

/-- The sum of the elapsed times of the completed trials. -/
def completedTime (iterations : Nat) (get : Nat → Trial) : Int :=
  ((completed iterations get).map (fun i => (get i).elapsed)).sum

/-- The sum of the byte counts of the completed trials. -/
def completedBytes (iterations : Nat) (get : Nat → Trial) : Int :=
  ((completed iterations get).map (fun i => (get i).written)).sum

/-- Trial 1 completes (5 ms, 1024 bytes), trial 2 fails to connect after 7 ms,
trial 3 fails while draining the body after 3 ms and 512 bytes. -/
def oneOfThreeCompletes : Nat → Trial :=
  fun i => if i = 0 then Trial.success 5000000 1024
    else if i = 1 then Trial.connError 7000000 else Trial.readError 3000000 512

/-- Trial 1 fails to connect and the process is preempted once meanwhile;
trial 2 succeeds after 100 ns without preemption. -/
def failedWhilePreempted : Nat → Trial :=
  fun i => if i = 0 then ⟨true, 999, false, 0, 0, 0, 0, 1⟩ else Trial.success 100 0

/-- Trials 1 and 3 complete after 100 ns and 300 ns; the request of trial 2
succeeds after 500 ns but draining its body fails after 10 bytes. -/
def secondDrainFails : Nat → Trial :=
  fun i => if i = 1 then Trial.readError 500 10 else Trial.success (100 + 100 * i) 0

/-- The arithmetic mean of a list of durations as an exact rational. -/
def exactMean (data : List Int) : ℚ :=
  (data.sum : ℚ) / (data.length : ℚ)

/-- The `float64` nearest to the decimal `83.33333333333333`. -/
def fractionalPercent : F64 := F64.round false 8333333333333333 100000000000000

/-! ## Basic facts: machine integers, indexing, sorting -/

theorem wrap64_eq {x : Int} (h1 : -9223372036854775808 ≤ x) (h2 : x < 9223372036854775808) :
    wrap64 x = x := by
  unfold wrap64
  omega

theorem wrap64_wrap64_add (a b : Int) : wrap64 (wrap64 a + b) = wrap64 (a + b) := by
  unfold wrap64
  omega

theorem index_natCast (xs : List Int) (i : Nat) (h : i < xs.length) :
    index xs (i : Int) = .ok (xs.getD i 0) := by
  unfold index
  have h1 : (0 : Int) ≤ (i : Int) ∧ (i : Int) < (xs.length : Int) := by omega
  rw [if_pos h1]
  simp

theorem sortSlice_sorted (data : List Int) : (sortSlice data).Sorted (· ≤ ·) :=
  List.sorted_insertionSort _ data

theorem sortSlice_perm (data : List Int) : (sortSlice data).Perm data :=
  List.perm_insertionSort _ data

theorem sortSlice_length (data : List Int) : (sortSlice data).length = data.length :=
  (sortSlice_perm data).length_eq

/-- The ascending rearrangement of a list of integers is unique. -/
theorem sortSlice_unique {data s : List Int} (hs : s.Sorted (· ≤ ·)) (hp : s.Perm data) :
    sortSlice data = s :=
  List.eq_of_perm_of_sorted ((sortSlice_perm data).trans hp.symm) (sortSlice_sorted data) hs

theorem goDiv_explicit (a : Int) {b : Int} (hb : b ≠ 0) :
    goDiv a b = .ok (wrap64 (Int.tdiv a b)) := by
  unfold goDiv
  rw [if_neg hb]

/-! ## Explicit forms of the statistics on a non-empty list -/

/-- The value `median` computes on a non-empty list, overflow included. -/
theorem median_explicit (data : List Int) (hne : data ≠ []) :
    median data = .ok
      (if data.length % 2 = 0 then
        wrap64 (Int.tdiv (wrap64 ((sortSlice data).getD (data.length / 2 - 1) 0
          + (sortSlice data).getD (data.length / 2) 0)) 2)
       else (sortSlice data).getD (data.length / 2) 0) := by
  have hlen := sortSlice_length data
  have hpos : 0 < data.length := List.length_pos.mpr hne
  unfold median
  simp only [hlen]
  by_cases hpar : data.length % 2 = 0
  · have hpar2 : ((data.length : Nat) : Int) % 2 = 0 := by omega
    rw [if_pos hpar2, if_pos hpar]
    have e1 : ((data.length : Nat) : Int) / 2 - 1 = ((data.length / 2 - 1 : Nat) : Int) := by omega
    have e2 : ((data.length : Nat) : Int) / 2 = ((data.length / 2 : Nat) : Int) := by omega
    rw [e1, e2, index_natCast _ _ (by omega), index_natCast _ _ (by omega)]
    exact goDiv_explicit _ (show (2 : Int) ≠ 0 by decide)
  · have hpar2 : ¬ ((data.length : Nat) : Int) % 2 = 0 := by omega
    rw [if_neg hpar2, if_neg hpar]
    have e2 : ((data.length : Nat) : Int) / 2 = ((data.length / 2 : Nat) : Int) := by omega
    rw [e2, index_natCast _ _ (by omega)]

/-- The value `percentile` computes on a non-empty list for `0 ≤ p ≤ 100`. -/
theorem percentile_explicit (data : List Int) (p : Nat) (hne : data ≠ []) (hp100 : p ≤ 100) :
    percentile data (p : Int) =
      .ok ((sortSlice data).getD (min (data.length * p / 100) (data.length - 1)) 0) := by
  have hlen := sortSlice_length data
  have hpos : 0 < data.length := List.length_pos.mpr hne
  unfold percentile
  simp only [hlen]
  have hq : Int.tdiv (((data.length : Nat) : Int) * (p : Int)) 100
      = ((data.length * p / 100 : Nat) : Int) := by
    rw [Int.tdiv_eq_ediv (by positivity) (by omega)]
    push_cast
    rfl
  rw [hq]
  have hle : data.length * p / 100 ≤ data.length := by
    apply Nat.div_le_of_le_mul
    nlinarith
  by_cases hc : data.length * p / 100 ≥ data.length
  · rw [if_pos (by omega)]
    have e : ((data.length : Nat) : Int) - 1 = ((data.length - 1 : Nat) : Int) := by omega
    rw [e, index_natCast _ _ (by omega), Nat.min_eq_right (by omega)]
  · rw [if_neg (by omega), index_natCast _ _ (by omega), Nat.min_eq_left (by omega)]

theorem top20Count_eq_max (len : Nat) : top20Count len = max 1 (len / 5) := by
  unfold top20Count
  split <;> omega

theorem top20Count_pos (len : Nat) : 0 < top20Count len := by
  rw [top20Count_eq_max]; omega

theorem top20Count_le {len : Nat} (h : 0 < len) : top20Count len ≤ len := by
  rw [top20Count_eq_max]; omega

/-- The value the summation loop computes, overflow included. -/
theorem sumFirst_explicit (sorted : List Int) :
    ∀ k, k ≤ sorted.length → sumFirst sorted k = .ok (wrap64 (sorted.take k).sum)
  | 0, _ => by
    simp only [sumFirst, List.take_zero, List.sum_nil]
    rfl
  | k + 1, hk => by
    have ih := sumFirst_explicit sorted k (by omega)
    have hx := index_natCast sorted k (by omega)
    rw [sumFirst, ih]
    show (do let x ← index sorted (k : Int); Except.ok (wrap64 (wrap64 (sorted.take k).sum + x))) = _
    rw [hx]
    show Except.ok (wrap64 (wrap64 (sorted.take k).sum + sorted.getD k 0)) = _
    rw [wrap64_wrap64_add, List.sum_take_succ sorted k (by omega),
      List.getD_eq_getElem sorted 0 (by omega)]

/-- The value `top20Avg` computes on a non-empty list, overflow included. -/
theorem top20Avg_explicit (data : List Int) (hne : data ≠ []) :
    top20Avg data = .ok (wrap64 (Int.tdiv
      (wrap64 ((sortSlice data).take (top20Count data.length)).sum)
      (top20Count data.length))) := by
  have hlen := sortSlice_length data
  have hpos : 0 < data.length := List.length_pos.mpr hne
  have hk := top20Count_pos data.length
  have hk2 := top20Count_le hpos
  unfold top20Avg
  simp only [hlen]
  rw [sumFirst_explicit _ _ (by omega)]
  show goDiv _ _ = _
  rw [goDiv_explicit _ (by omega)]

/-! ## The measurement loop of benchmark.go -/

theorem loopBody_durations (st : LoopState) (i : Nat) (t : Trial) :
    (loopBody st i t).durations =
      st.durations ++ (if t.err then [] else [t.elapsed]) := by
  unfold loopBody
  cases t.err <;> simp

theorem loopBody_total (st : LoopState) (i : Nat) (t : Trial)
    (h : st.totalDuration = wrap64 st.durations.sum) :
    (loopBody st i t).totalDuration = wrap64 (loopBody st i t).durations.sum := by
  unfold loopBody
  cases t.err
  · simp only [Bool.false_eq_true, if_false, List.sum_append, List.sum_cons, List.sum_nil,
      add_zero]
    rw [h, wrap64_wrap64_add]
  · simpa using h

theorem loopBody_requests (st : LoopState) (i : Nat) (t : Trial) :
    (loopBody st i t).requests = st.requests + 1 := by
  unfold loopBody
  cases t.err <;> simp

theorem loopBody_errorLog (st : LoopState) (i : Nat) (t : Trial) :
    (loopBody st i t).errorLog = st.errorLog ++ (if t.err then [i + 1] else []) := by
  unfold loopBody
  cases t.err <;> simp

theorem foldl_loopBody_durations (get : Nat → Trial) (l : List Nat) (st : LoopState) :
    (l.foldl (fun st i => loopBody st i (get i)) st).durations =
      st.durations ++ (l.filter (fun i => !(get i).err)).map (fun i => (get i).elapsed) := by
  induction l generalizing st with
  | nil => simp
  | cons i l ih =>
    rw [List.foldl_cons, ih, loopBody_durations]
    cases h : (get i).err <;> simp [List.filter_cons, h]

theorem foldl_loopBody_total (get : Nat → Trial) (l : List Nat) (st : LoopState)
    (h : st.totalDuration = wrap64 st.durations.sum) :
    (l.foldl (fun st i => loopBody st i (get i)) st).totalDuration =
      wrap64 (l.foldl (fun st i => loopBody st i (get i)) st).durations.sum := by
  induction l generalizing st with
  | nil => simpa using h
  | cons i l ih =>
    rw [List.foldl_cons]
    exact ih _ (loopBody_total st i (get i) h)

theorem foldl_loopBody_requests (get : Nat → Trial) (l : List Nat) (st : LoopState) :
    (l.foldl (fun st i => loopBody st i (get i)) st).requests = st.requests + l.length := by
  induction l generalizing st with
  | nil => simp
  | cons i l ih =>
    rw [List.foldl_cons, ih, loopBody_requests, List.length_cons]
    omega

theorem foldl_loopBody_errorLog (get : Nat → Trial) (l : List Nat) (st : LoopState) :
    (l.foldl (fun st i => loopBody st i (get i)) st).errorLog =
      st.errorLog ++ (l.filter (fun i => (get i).err)).map (fun i => i + 1) := by
  induction l generalizing st with
  | nil => simp
  | cons i l ih =>
    rw [List.foldl_cons, ih, loopBody_errorLog]
    cases h : (get i).err <;> simp [List.filter_cons, h]

/-- The loop records the elapsed times of the successful trials, in order. -/
theorem measurementLoop_durations (iterations : Nat) (get : Nat → Trial) :
    (measurementLoop iterations get).durations =
      (succeeded iterations get).map (fun i => (get i).elapsed) := by
  unfold measurementLoop succeeded
  rw [foldl_loopBody_durations]
  rfl

/-- The accumulated `totalDuration` is the wrapped sum of the recorded durations. -/
theorem measurementLoop_total (iterations : Nat) (get : Nat → Trial) :
    (measurementLoop iterations get).totalDuration =
      wrap64 (measurementLoop iterations get).durations.sum := by
  unfold measurementLoop
  exact foldl_loopBody_total get _ _ rfl

/-! ## The statistics of benchmark.go on a non-empty list -/

/-- On a non-empty list of durations no step of the statistics panics, and the
printed values are the ones named here. -/
theorem statistics_explicit (st : LoopState) (hne : st.durations ≠ []) :
    ∃ m p90 p95 p99 t,
      median st.durations = .ok m ∧
      percentile st.durations 90 = .ok p90 ∧
      percentile st.durations 95 = .ok p95 ∧
      percentile st.durations 99 = .ok p99 ∧
      top20Avg st.durations = .ok t ∧
      statistics st = .ok
        ⟨wrap64 (Int.tdiv st.totalDuration st.durations.length), m, t, p90, p95, p99,
         (minMax st.durations (st.durations.getD 0 0, st.durations.getD 0 0)).1,
         (minMax st.durations (st.durations.getD 0 0, st.durations.getD 0 0)).2,
         countOutliers st.durations
           (wrap64 (wrap64 (Int.tdiv st.totalDuration st.durations.length) * 3))⟩ := by
  have hpos : 0 < st.durations.length := List.length_pos.mpr hne
  have hm := median_explicit st.durations hne
  have h50 := percentile_explicit st.durations 50 hne (by decide)
  have h90 := percentile_explicit st.durations 90 hne (by decide)
  have h95 := percentile_explicit st.durations 95 hne (by decide)
  have h99 := percentile_explicit st.durations 99 hne (by decide)
  have ht := top20Avg_explicit st.durations hne
  have ha := goDiv_explicit st.totalDuration
    (show ((st.durations.length : Nat) : Int) ≠ 0 by omega)
  have hf := index_natCast st.durations 0 hpos
  refine ⟨_, _, _, _, _, hm, h90, h95, h99, ht, ?_⟩
  unfold statistics
  simp only [Nat.cast_ofNat] at h50 h90 h95 h99
  simp only [Nat.cast_zero] at hf
  rw [ha, hm, hf, h50, h90, h95, h99, ht]
  rfl

/-! ## Outlier count and extrema as folds -/

theorem foldl_outliers (threshold : Int) (data : List Int) (c : Nat) :
    data.foldl (fun outliers d => if d > threshold then outliers + 1 else outliers) c =
      c + data.countP (fun d => decide (d > threshold)) := by
  induction data generalizing c with
  | nil => simp
  | cons d data ih =>
    rw [List.foldl_cons, ih, List.countP_cons]
    by_cases h : d > threshold
    · simp only [h, if_true, decide_True]
      omega
    · simp only [h, if_false, decide_False]
      simp

/-- The outlier loop counts the durations strictly above the threshold. -/
theorem countOutliers_eq_countP (data : List Int) (threshold : Int) :
    countOutliers data threshold = data.countP (fun d => decide (d > threshold)) := by
  unfold countOutliers
  rw [foldl_outliers]
  omega

/-! ## The measurement loop of scheduler_analysis.go -/

theorem schedLoopBody_durations (st : SchedState) (i : Nat) (t : Trial) :
    (schedLoopBody st i t).durations =
      st.durations ++ (if t.err then [] else [t.elapsed]) := by
  unfold schedLoopBody
  cases t.err
  · by_cases h : involuntaryCtx t > 0 <;> simp [h]
  · simp

theorem schedLoopBody_delays (st : SchedState) (i : Nat) (t : Trial) :
    (schedLoopBody st i t).schedulingDelays =
      st.schedulingDelays ++
        (if (!t.err && decide (involuntaryCtx t > 0)) = true then [t.elapsed] else []) := by
  unfold schedLoopBody
  cases t.err
  · by_cases h : involuntaryCtx t > 0 <;> simp [h]
  · simp

theorem foldl_schedLoopBody_durations (get : Nat → Trial) (l : List Nat) (st : SchedState) :
    (l.foldl (fun st i => schedLoopBody st i (get i)) st).durations =
      st.durations ++ (l.filter (fun i => !(get i).err)).map (fun i => (get i).elapsed) := by
  induction l generalizing st with
  | nil => simp
  | cons i l ih =>
    rw [List.foldl_cons, ih, schedLoopBody_durations]
    cases h : (get i).err <;> simp [List.filter_cons, h]

theorem foldl_schedLoopBody_delays (get : Nat → Trial) (l : List Nat) (st : SchedState) :
    (l.foldl (fun st i => schedLoopBody st i (get i)) st).schedulingDelays =
      st.schedulingDelays ++
        (l.filter (fun i => !(get i).err && decide (involuntaryCtx (get i) > 0))).map
          (fun i => (get i).elapsed) := by
  induction l generalizing st with
  | nil => simp
  | cons i l ih =>
    rw [List.foldl_cons, ih, schedLoopBody_delays]
    by_cases h : (!(get i).err && decide (involuntaryCtx (get i) > 0)) = true
    · rw [if_pos h]
      simp [List.filter_cons, h]
    · rw [if_neg h]
      simp [List.filter_cons, h]

theorem schedLoop_durations (iterations : Nat) (get : Nat → Trial) :
    (schedLoop iterations get).durations =
      (succeeded iterations get).map (fun i => (get i).elapsed) := by
  unfold schedLoop succeeded
  rw [foldl_schedLoopBody_durations]
  rfl

theorem schedLoop_delays (iterations : Nat) (get : Nat → Trial) :
    (schedLoop iterations get).schedulingDelays =
      (preemptedSucceeded iterations get).map (fun i => (get i).elapsed) := by
  unfold schedLoop preemptedSucceeded
  rw [foldl_schedLoopBody_delays]
  rfl

theorem succeeded_eq_nil {iterations : Nat} {get : Nat → Trial}
    (hall : ∀ i, i < iterations → (get i).err = true) : succeeded iterations get = [] := by
  unfold succeeded
  rw [List.filter_eq_nil_iff]
  intro i hi
  rw [List.mem_range] at hi
  simp [hall i hi]

theorem succeeded_ne_nil {iterations : Nat} {get : Nat → Trial} {i : Nat}
    (hi : i < iterations) (herr : (get i).err = false) : succeeded iterations get ≠ [] := by
  intro h
  have hmem : i ∈ succeeded iterations get := by
    unfold succeeded
    rw [List.mem_filter, List.mem_range]
    exact ⟨hi, by simp [herr]⟩
  rw [h] at hmem
  exact List.not_mem_nil _ hmem

/-! ## Sorted lists of non-negative integers -/

theorem sorted_getD_le {s : List Int} (hs : s.Sorted (· ≤ ·)) {i j : Nat} (hij : i ≤ j)
    (hj : j < s.length) : s.getD i 0 ≤ s.getD j 0 := by
  rw [List.getD_eq_getElem s 0 (by omega), List.getD_eq_getElem s 0 hj]
  rcases Nat.eq_or_lt_of_le hij with h | h
  · subst h; exact le_refl _
  · exact (List.pairwise_iff_getElem.mp hs) i j (by omega) hj h

theorem mem_take_le {s : List Int} (hs : s.Sorted (· ≤ ·)) {k : Nat} (hk : 0 < k)
    (hkl : k ≤ s.length) {x : Int} (hx : x ∈ s.take k) : x ≤ s.getD (k - 1) 0 := by
  obtain ⟨i, hi, rfl⟩ := List.getElem_of_mem hx
  rw [List.length_take] at hi
  rw [List.getElem_take, ← List.getD_eq_getElem s 0 (by omega)]
  exact sorted_getD_le hs (by omega) (by omega)

theorem le_mem_drop {s : List Int} (hs : s.Sorted (· ≤ ·)) {k : Nat} (hk : 0 < k)
    {x : Int} (hx : x ∈ s.drop k) : s.getD (k - 1) 0 ≤ x := by
  obtain ⟨i, hi, rfl⟩ := List.getElem_of_mem hx
  rw [List.length_drop] at hi
  rw [List.getElem_drop, ← List.getD_eq_getElem s 0 (by omega)]
  exact sorted_getD_le hs (by omega) (by omega)

theorem sum_take_le_mul {s : List Int} (hs : s.Sorted (· ≤ ·)) {k : Nat} (hk : 0 < k)
    (hkl : k ≤ s.length) : (s.take k).sum ≤ (k : Int) * s.getD (k - 1) 0 := by
  have h := List.sum_le_card_nsmul (s.take k) (s.getD (k - 1) 0)
    (fun x hx => mem_take_le hs hk hkl hx)
  rw [List.length_take, Nat.min_eq_left hkl, nsmul_eq_mul] at h
  exact h

theorem mul_le_sum_drop {s : List Int} (hs : s.Sorted (· ≤ ·)) {k : Nat} (hk : 0 < k) :
    ((s.length - k : Nat) : Int) * s.getD (k - 1) 0 ≤ (s.drop k).sum := by
  have h := List.card_nsmul_le_sum (s.drop k) (s.getD (k - 1) 0)
    (fun x hx => le_mem_drop hs hk hx)
  rw [List.length_drop, nsmul_eq_mul] at h
  exact h

theorem sum_take_le_sum {s : List Int} (hnn : ∀ d ∈ s, 0 ≤ d) (k : Nat) :
    (s.take k).sum ≤ s.sum := by
  have h := List.sum_take_add_sum_drop s k
  have h2 : 0 ≤ (s.drop k).sum := List.sum_nonneg (fun d hd => hnn d (List.mem_of_mem_drop hd))
  omega

theorem two_adjacent_le_sum {s : List Int} (hnn : ∀ d ∈ s, 0 ≤ d) {i : Nat}
    (hi : i + 1 < s.length) : s.getD i 0 + s.getD (i + 1) 0 ≤ s.sum := by
  have h := List.sum_take_add_sum_drop s i
  have h1 : 0 ≤ (s.take i).sum := List.sum_nonneg (fun d hd => hnn d (List.mem_of_mem_take hd))
  have h2 : 0 ≤ (s.drop (i + 1 + 1)).sum :=
    List.sum_nonneg (fun d hd => hnn d (List.mem_of_mem_drop hd))
  rw [List.drop_eq_getElem_cons (show i < s.length by omega),
    List.drop_eq_getElem_cons hi, List.sum_cons, List.sum_cons] at h
  rw [List.getD_eq_getElem s 0 (by omega), List.getD_eq_getElem s 0 hi]
  omega

/-! ## Values of the statistics when nothing overflows -/

/-- The value of `median` on non-negative durations whose sum fits `int64`. -/
theorem median_value (data : List Int) (hne : data ≠ []) (hnn : ∀ d ∈ data, 0 ≤ d)
    (hsum : data.sum < 9223372036854775808) :
    median data = .ok
      (if data.length % 2 = 0 then
        ((sortSlice data).getD (data.length / 2 - 1) 0
          + (sortSlice data).getD (data.length / 2) 0) / 2
       else (sortSlice data).getD (data.length / 2) 0) := by
  have hlen := sortSlice_length data
  have hpos : 0 < data.length := List.length_pos.mpr hne
  have hnn2 : ∀ d ∈ sortSlice data, 0 ≤ d := fun d hd => hnn d ((sortSlice_perm data).subset hd)
  rw [median_explicit data hne]
  by_cases hpar : data.length % 2 = 0
  · rw [if_pos hpar, if_pos hpar]
    have hadj := two_adjacent_le_sum hnn2 (i := data.length / 2 - 1) (by omega)
    rw [show data.length / 2 - 1 + 1 = data.length / 2 by omega,
      (sortSlice_perm data).sum_eq] at hadj
    have ha : 0 ≤ (sortSlice data).getD (data.length / 2 - 1) 0 := by
      rw [List.getD_eq_getElem _ 0 (by omega)]
      exact hnn2 _ (List.getElem_mem _)
    have hb : 0 ≤ (sortSlice data).getD (data.length / 2) 0 := by
      rw [List.getD_eq_getElem _ 0 (by omega)]
      exact hnn2 _ (List.getElem_mem _)
    have hw : wrap64 ((sortSlice data).getD (data.length / 2 - 1) 0
        + (sortSlice data).getD (data.length / 2) 0)
        = (sortSlice data).getD (data.length / 2 - 1) 0
          + (sortSlice data).getD (data.length / 2) 0 := wrap64_eq (by omega) (by omega)
    rw [hw, Int.tdiv_eq_ediv (by omega) (by omega), wrap64_eq (by omega) (by omega)]
  · rw [if_neg hpar, if_neg hpar]

/-- The value of `top20Avg` on non-negative durations whose `top20Count`
fastest have a sum that fits `int64`. -/
theorem top20Avg_value (data : List Int) (hne : data ≠ []) (hnn : ∀ d ∈ data, 0 ≤ d)
    (hsum : ((sortSlice data).take (top20Count data.length)).sum < 9223372036854775808) :
    top20Avg data = .ok (((sortSlice data).take (top20Count data.length)).sum
      / (top20Count data.length : Nat)) := by
  have hk := top20Count_pos data.length
  rw [top20Avg_explicit data hne]
  have h0 : 0 ≤ ((sortSlice data).take (top20Count data.length)).sum :=
    List.sum_nonneg (fun d hd => hnn d ((sortSlice_perm data).subset (List.mem_of_mem_take hd)))
  rw [wrap64_eq (by omega) hsum, Int.tdiv_eq_ediv h0 (by omega)]
  have h1 : 0 ≤ ((sortSlice data).take (top20Count data.length)).sum
      / ((top20Count data.length : Nat) : Int) := Int.ediv_nonneg h0 (by omega)
  have h2 : ((sortSlice data).take (top20Count data.length)).sum
      / ((top20Count data.length : Nat) : Int)
      ≤ ((sortSlice data).take (top20Count data.length)).sum := Int.ediv_le_self _ h0
  rw [wrap64_eq (by omega) (by omega)]

/-- The value of `avgDuration` after the loop, on non-negative durations whose
sum fits `int64`. -/
theorem avgDuration_value (iterations : Nat) (get : Nat → Trial) (data : List Int)
    (hdata : (measurementLoop iterations get).durations = data) (hne : data ≠ [])
    (hnn : ∀ d ∈ data, 0 ≤ d) (hsum : data.sum < 9223372036854775808) :
    wrap64 (Int.tdiv (measurementLoop iterations get).totalDuration
      ((measurementLoop iterations get).durations.length : Int))
      = data.sum / (data.length : Int) := by
  have hpos : 0 < data.length := List.length_pos.mpr hne
  have h0 : 0 ≤ data.sum := List.sum_nonneg hnn
  have htot : (measurementLoop iterations get).totalDuration = data.sum := by
    rw [measurementLoop_total, hdata, wrap64_eq (by omega) hsum]
  have hq0 : 0 ≤ data.sum / (data.length : Int) := Int.ediv_nonneg h0 (by omega)
  have hq1 : data.sum / (data.length : Int) ≤ data.sum := Int.ediv_le_self _ h0
  rw [htot, hdata, Int.tdiv_eq_ediv h0 (by omega), wrap64_eq (by omega) (by omega)]

/-! ## Order relations between the trimmed mean, the median and the mean -/

/-- The mean of the `k` smallest is at most the `k`-th smallest. -/
theorem trimmed_le_kth {s : List Int} (hs : s.Sorted (· ≤ ·)) {k : Nat} (hk : 0 < k)
    (hkl : k ≤ s.length) : (s.take k).sum / (k : Int) ≤ s.getD (k - 1) 0 := by
  apply Int.ediv_le_of_le_mul (by omega)
  have h := sum_take_le_mul hs hk hkl
  rw [mul_comm]
  exact h

/-- The mean of the `k` smallest is at most the mean of all. -/
theorem trimmed_le_mean {s : List Int} (hs : s.Sorted (· ≤ ·)) {k : Nat} (hk : 0 < k)
    (hkl : k ≤ s.length) : (s.take k).sum / (k : Int) ≤ s.sum / (s.length : Int) := by
  apply Int.le_ediv_of_mul_le (by omega)
  have h1 : (s.take k).sum / (k : Int) * (k : Int) ≤ (s.take k).sum :=
    Int.ediv_mul_le _ (by omega)
  have h2 := trimmed_le_kth hs hk hkl
  have h3 := mul_le_sum_drop hs hk
  have h4 := List.sum_take_add_sum_drop s k
  have h5 : ((s.length - k : Nat) : Int) * ((s.take k).sum / (k : Int))
      ≤ ((s.length - k : Nat) : Int) * s.getD (k - 1) 0 :=
    mul_le_mul_of_nonneg_left h2 (by omega)
  have h6 : (s.length : Int) = (k : Int) + ((s.length - k : Nat) : Int) := by omega
  rw [h6]
  nlinarith

/-- The `top20Count`-th smallest is at most the median value. -/
theorem kth_le_median {s : List Int} (hs : s.Sorted (· ≤ ·)) (hpos : 0 < s.length) :
    s.getD (top20Count s.length - 1) 0 ≤
      (if s.length % 2 = 0 then
        (s.getD (s.length / 2 - 1) 0 + s.getD (s.length / 2) 0) / 2
       else s.getD (s.length / 2) 0) := by
  have hk := top20Count_eq_max s.length
  by_cases hpar : s.length % 2 = 0
  · rw [if_pos hpar]
    have h1 : s.getD (top20Count s.length - 1) 0 ≤ s.getD (s.length / 2 - 1) 0 :=
      sorted_getD_le hs (by omega) (by omega)
    have h2 : s.getD (s.length / 2 - 1) 0 ≤ s.getD (s.length / 2) 0 :=
      sorted_getD_le hs (by omega) (by omega)
    omega
  · rw [if_neg hpar]
    exact sorted_getD_le hs (by omega) (by omega)

/-! ## Independence of the order of the durations -/

theorem sortSlice_congr {data data' : List Int} (hperm : data.Perm data') :
    sortSlice data = sortSlice data' :=
  (sortSlice_unique (sortSlice_sorted data') ((sortSlice_perm data').trans hperm.symm))

theorem median_congr {data data' : List Int} (hperm : data.Perm data') :
    median data = median data' := by
  unfold median
  rw [sortSlice_congr hperm]

theorem percentile_congr {data data' : List Int} (hperm : data.Perm data') (p : Int) :
    percentile data p = percentile data' p := by
  unfold percentile
  rw [sortSlice_congr hperm]

theorem percentileF64_congr {data data' : List Int} (hperm : data.Perm data') (p : F64) :
    percentileF64 data p = percentileF64 data' p := by
  unfold percentileF64
  rw [sortSlice_congr hperm]

theorem top20Avg_congr {data data' : List Int} (hperm : data.Perm data') :
    top20Avg data = top20Avg data' := by
  unfold top20Avg
  rw [sortSlice_congr hperm]

/-- What the extrema loop computes from any starting pair. -/
theorem minMax_spec (data : List Int) : ∀ start : Int × Int,
    ((minMax data start).1 ≤ start.1 ∧ (∀ d ∈ data, (minMax data start).1 ≤ d) ∧
      ((minMax data start).1 = start.1 ∨ (minMax data start).1 ∈ data)) ∧
    (start.2 ≤ (minMax data start).2 ∧ (∀ d ∈ data, d ≤ (minMax data start).2) ∧
      ((minMax data start).2 = start.2 ∨ (minMax data start).2 ∈ data)) := by
  induction data with
  | nil =>
    intro start
    simp [minMax]
  | cons x data ih =>
    intro start
    obtain ⟨lo, hlo⟩ : ∃ lo, lo = (if x < start.1 then x else start.1) := ⟨_, rfl⟩
    obtain ⟨hi, hhi⟩ : ∃ hi, hi = (if x > start.2 then x else start.2) := ⟨_, rfl⟩
    have e : minMax (x :: data) start = minMax data (lo, hi) := by
      rw [hlo, hhi]; rfl
    have flo : lo ≤ start.1 ∧ lo ≤ x ∧ (lo = x ∨ lo = start.1) := by
      split at hlo <;> omega
    have fhi : start.2 ≤ hi ∧ x ≤ hi ∧ (hi = x ∨ hi = start.2) := by
      split at hhi <;> omega
    rw [e]
    obtain ⟨⟨a1, a2, a3⟩, ⟨b1, b2, b3⟩⟩ := ih (lo, hi)
    simp only at a1 a3 b1 b3
    refine ⟨⟨by omega, ?_, ?_⟩, ⟨by omega, ?_, ?_⟩⟩
    · intro d hd
      rcases List.mem_cons.mp hd with rfl | hd
      · omega
      · exact a2 d hd
    · rcases a3 with a3 | a3
      · rcases flo.2.2 with h | h
        · right; rw [a3, h]; exact List.mem_cons_self _ _
        · left; rw [a3, h]
      · right; exact List.mem_cons_of_mem _ a3
    · intro d hd
      rcases List.mem_cons.mp hd with rfl | hd
      · omega
      · exact b2 d hd
    · rcases b3 with b3 | b3
      · rcases fhi.2.2 with h | h
        · right; rw [b3, h]; exact List.mem_cons_self _ _
        · left; rw [b3, h]
      · right; exact List.mem_cons_of_mem _ b3

theorem getD_zero_mem {data : List Int} (hne : data ≠ []) : data.getD 0 0 ∈ data := by
  rw [List.getD_eq_getElem data 0 (List.length_pos.mpr hne)]
  exact List.getElem_mem _

/-- The smallest duration found by the loop is a lower bound that is attained. -/
theorem minMax_min {data : List Int} (hne : data ≠ []) :
    (minMax data (data.getD 0 0, data.getD 0 0)).1 ∈ data ∧
    ∀ d ∈ data, (minMax data (data.getD 0 0, data.getD 0 0)).1 ≤ d := by
  obtain ⟨⟨_, a2, a3⟩, _⟩ := minMax_spec data (data.getD 0 0, data.getD 0 0)
  refine ⟨?_, a2⟩
  rcases a3 with a3 | a3
  · rw [a3]; exact getD_zero_mem hne
  · exact a3

/-- The largest duration found by the loop is an upper bound that is attained. -/
theorem minMax_max {data : List Int} (hne : data ≠ []) :
    (minMax data (data.getD 0 0, data.getD 0 0)).2 ∈ data ∧
    ∀ d ∈ data, d ≤ (minMax data (data.getD 0 0, data.getD 0 0)).2 := by
  obtain ⟨_, ⟨_, b2, b3⟩⟩ := minMax_spec data (data.getD 0 0, data.getD 0 0)
  refine ⟨?_, b2⟩
  rcases b3 with b3 | b3
  · rw [b3]; exact getD_zero_mem hne
  · exact b3

theorem minMax_congr {data data' : List Int} (hne : data ≠ []) (hperm : data.Perm data') :
    minMax data (data.getD 0 0, data.getD 0 0)
      = minMax data' (data'.getD 0 0, data'.getD 0 0) := by
  have hne' : data' ≠ [] := fun h => hne (List.Perm.eq_nil (h ▸ hperm))
  obtain ⟨m1, m2⟩ := minMax_min hne
  obtain ⟨m1', m2'⟩ := minMax_min hne'
  obtain ⟨x1, x2⟩ := minMax_max hne
  obtain ⟨x1', x2'⟩ := minMax_max hne'
  apply Prod.ext
  · exact le_antisymm (m2 _ (hperm.symm.subset m1')) (m2' _ (hperm.subset m1))
  · exact le_antisymm (x2' _ (hperm.subset x1)) (x2 _ (hperm.symm.subset x1'))

theorem countOutliers_congr {data data' : List Int} (hperm : data.Perm data') (threshold : Int) :
    countOutliers data threshold = countOutliers data' threshold := by
  rw [countOutliers_eq_countP, countOutliers_eq_countP]
  exact hperm.countP_eq _

/-- The statistics of benchmark.go depend on the recorded durations only up to
their order. -/
theorem statistics_congr {st st' : LoopState} (hne : st.durations ≠ [])
    (hperm : st.durations.Perm st'.durations) (htot : st.totalDuration = st'.totalDuration) :
    statistics st = statistics st' := by
  have hne' : st'.durations ≠ [] := fun h => hne (List.Perm.eq_nil (h ▸ hperm))
  obtain ⟨m, p90, p95, p99, t, hm, h90, h95, h99, ht, hst⟩ := statistics_explicit st hne
  obtain ⟨m', p90', p95', p99', t', hm', h90', h95', h99', ht', hst'⟩ :=
    statistics_explicit st' hne'
  rw [median_congr hperm, hm'] at hm
  rw [percentile_congr hperm, h90'] at h90
  rw [percentile_congr hperm, h95'] at h95
  rw [percentile_congr hperm, h99'] at h99
  rw [top20Avg_congr hperm, ht'] at ht
  rw [hst, hst', ← Except.ok.inj hm, ← Except.ok.inj h90, ← Except.ok.inj h95,
    ← Except.ok.inj h99, ← Except.ok.inj ht, minMax_congr hne hperm, htot, hperm.length_eq,
    countOutliers_congr hperm]

/-! ## The loops of bandwidth_test.go and http3_client.go -/

theorem wrap64_zero : wrap64 0 = 0 := by decide

theorem foldl_bandwidthBody (get : Nat → Trial) (l : List Nat) :
    ∀ (st : BandwidthState) (accT accB : Int),
      st.totalDuration = wrap64 accT → st.totalBytes = wrap64 accB →
      (l.foldl (fun st i => bandwidthBody st (get i)) st).totalDuration =
        wrap64 (accT + ((l.filter (fun i => !(get i).err && !(get i).copyErr)).map
          (fun i => (get i).elapsed)).sum) ∧
      (l.foldl (fun st i => bandwidthBody st (get i)) st).totalBytes =
        wrap64 (accB + ((l.filter (fun i => !(get i).err && !(get i).copyErr)).map
          (fun i => (get i).written)).sum) := by
  induction l with
  | nil =>
    intro st accT accB hT hB
    simpa using ⟨hT, hB⟩
  | cons i l ih =>
    intro st accT accB hT hB
    rw [List.foldl_cons]
    by_cases hc : (!(get i).err && !(get i).copyErr) = true
    · have he : (get i).err = false := by revert hc; cases (get i).err <;> simp
      have hr : (get i).copyErr = false := by revert hc; cases (get i).copyErr <;> simp
      have h := ih (bandwidthBody st (get i)) (accT + (get i).elapsed) (accB + (get i).written)
        (by simp [bandwidthBody, he, hr, hT, wrap64_wrap64_add])
        (by simp [bandwidthBody, he, hr, hB, wrap64_wrap64_add])
      rw [List.filter_cons, if_pos hc, List.map_cons, List.sum_cons, List.map_cons, List.sum_cons,
        ← add_assoc, ← add_assoc]
      exact h
    · have hb : bandwidthBody st (get i) =
          { st with connErrors := (bandwidthBody st (get i)).connErrors
                    readErrors := (bandwidthBody st (get i)).readErrors } := by
        unfold bandwidthBody
        revert hc
        cases (get i).err <;> cases (get i).copyErr <;> simp
      have h := ih (bandwidthBody st (get i)) accT accB (by rw [hb]; exact hT)
        (by rw [hb]; exact hB)
      rw [List.filter_cons, if_neg hc]
      exact h

theorem foldl_clientBody (get : Nat → Trial) (l : List Nat) :
    ∀ (st : ClientState) (accT accB : Int),
      st.totalTime = wrap64 accT → st.totalBytes = wrap64 accB →
      (l.foldl (fun st i => clientBody st (get i)) st).totalTime =
        wrap64 (accT + ((l.filter (fun i => !(get i).err && !(get i).copyErr)).map
          (fun i => (get i).elapsed)).sum) ∧
      (l.foldl (fun st i => clientBody st (get i)) st).totalBytes =
        wrap64 (accB + ((l.filter (fun i => !(get i).err && !(get i).copyErr)).map
          (fun i => (get i).written)).sum) ∧
      (l.foldl (fun st i => clientBody st (get i)) st).successCount =
        st.successCount + (l.filter (fun i => !(get i).err && !(get i).copyErr)).length := by
  induction l with
  | nil =>
    intro st accT accB hT hB
    simpa using ⟨hT, hB⟩
  | cons i l ih =>
    intro st accT accB hT hB
    rw [List.foldl_cons]
    by_cases hc : (!(get i).err && !(get i).copyErr) = true
    · have he : (get i).err = false := by revert hc; cases (get i).err <;> simp
      have hr : (get i).copyErr = false := by revert hc; cases (get i).copyErr <;> simp
      have h := ih (clientBody st (get i)) (accT + (get i).elapsed) (accB + (get i).written)
        (by simp [clientBody, he, hr, hT, wrap64_wrap64_add])
        (by simp [clientBody, he, hr, hB, wrap64_wrap64_add])
      have hs : (clientBody st (get i)).successCount = st.successCount + 1 := by
        simp [clientBody, he, hr]
      rw [List.filter_cons, if_pos hc, List.map_cons, List.sum_cons, List.map_cons, List.sum_cons,
        ← add_assoc, ← add_assoc, List.length_cons]
      rw [hs] at h
      refine ⟨h.1, h.2.1, ?_⟩
      rw [h.2.2]
      omega
    · have hb : clientBody st (get i) = st := by
        unfold clientBody
        revert hc
        cases (get i).err <;> cases (get i).copyErr <;> simp
      rw [hb, List.filter_cons, if_neg hc]
      exact ih st accT accB hT hB

theorem bandwidthLoop_totals (iterations : Nat) (get : Nat → Trial) :
    (bandwidthLoop iterations get).totalDuration = wrap64 (completedTime iterations get) ∧
    (bandwidthLoop iterations get).totalBytes = wrap64 (completedBytes iterations get) := by
  have h := foldl_bandwidthBody get (List.range iterations) BandwidthState.init 0 0
    wrap64_zero.symm wrap64_zero.symm
  simp only [zero_add] at h
  exact h

theorem clientLoop_totals (iterations : Nat) (get : Nat → Trial) :
    (clientLoop iterations get).totalTime = wrap64 (completedTime iterations get) ∧
    (clientLoop iterations get).totalBytes = wrap64 (completedBytes iterations get) ∧
    (clientLoop iterations get).successCount = (completed iterations get).length := by
  have h := foldl_clientBody get (List.range iterations) ClientState.init 0 0
    wrap64_zero.symm wrap64_zero.symm
  simp only [zero_add] at h
  refine ⟨h.1, h.2.1, ?_⟩
  rw [clientLoop, h.2.2]
  simp [ClientState.init, completed]

/-! ## The statistics of scheduler_analysis.go on a non-empty list -/

theorem schedStatistics_explicit (iterations : Nat) (st : SchedState)
    (hne : st.durations ≠ []) :
    ∃ m p90 p95 p99 t,
      schedStatistics iterations st = .ok
        ⟨wrap64 (Int.tdiv st.totalDuration st.durations.length), m, t, p90, p95, p99,
         st.schedulingDelays.length, iterations,
         (st.schedulingDelays.length : ℚ) / (iterations : ℚ) * 100⟩ := by
  have hpos : 0 < st.durations.length := List.length_pos.mpr hne
  have hm := median_explicit st.durations hne
  have h90 := percentile_explicit st.durations 90 hne (by decide)
  have h95 := percentile_explicit st.durations 95 hne (by decide)
  have h99 := percentile_explicit st.durations 99 hne (by decide)
  have ht := top20Avg_explicit st.durations hne
  have ha := goDiv_explicit st.totalDuration
    (show ((st.durations.length : Nat) : Int) ≠ 0 by omega)
  unfold schedStatistics
  simp only [Nat.cast_ofNat] at h90 h95 h99
  rw [ha, hm, h90, h95, h99, ht]
  exact ⟨_, _, _, _, _, rfl⟩

/-! ## The index computed by `percentile` for any whole-number `p` -/

/-- Truncating division by 100 in terms of flooring division. -/
theorem tdiv_hundred (a : Int) :
    Int.tdiv a 100 = if 0 ≤ a then a / 100 else -((-a) / 100) := by
  by_cases h : 0 ≤ a
  · rw [if_pos h, Int.tdiv_eq_ediv h (by decide)]
  · rw [if_neg h]
    have e : a = -(-a) := by omega
    rw [e, Int.neg_tdiv, Int.tdiv_eq_ediv (by omega) (by decide), neg_neg]

theorem sortSlice_getD_mem (data : List Int) {i : Nat} (hi : i < data.length) :
    (sortSlice data).getD i 0 ∈ data := by
  rw [List.getD_eq_getElem _ 0 (by rw [sortSlice_length]; exact hi)]
  exact (sortSlice_perm data).subset (List.getElem_mem _)

/-! ## Bounds by the extrema -/

/-- A truncated quotient by a positive divisor stays in the `int64` range. -/
theorem tdiv_in_range {a b : Int} (ha1 : -9223372036854775808 ≤ a)
    (ha2 : a < 9223372036854775808) (hb : 0 < b) :
    -9223372036854775808 ≤ Int.tdiv a b ∧ Int.tdiv a b < 9223372036854775808 := by
  by_cases h : 0 ≤ a
  · rw [Int.tdiv_eq_ediv h (by omega)]
    have h0 : 0 ≤ a / b := Int.ediv_nonneg h (by omega)
    have h1 : a / b ≤ a := Int.ediv_le_self b h
    omega
  · have e : a = -(-a) := by omega
    rw [e, Int.neg_tdiv, Int.tdiv_eq_ediv (by omega) (by omega)]
    have h0 : 0 ≤ (-a) / b := Int.ediv_nonneg (by omega) (by omega)
    have h1 : (-a) / b ≤ -a := Int.ediv_le_self b (by omega)
    omega

theorem sum_map_const (f : Nat → Int) (d : Int) :
    ∀ l : List Nat, (∀ i ∈ l, f i = d) → (l.map f).sum = (l.length : Int) * d
  | [], _ => by simp
  | i :: l, h => by
    have ih := sum_map_const f d l (fun j hj => h j (List.mem_cons_of_mem _ hj))
    rw [List.map_cons, List.sum_cons, ih, h i (List.mem_cons_self _ _), List.length_cons]
    push_cast
    ring

/-- The value `testBandwidth` reports as `avgDuration`, for `iterations ≥ 1` and
a total that fits `int64`. -/
theorem testBandwidth_avgDuration (iterations : Nat) (get : Nat → Trial)
    (hit : 0 < iterations)
    (hT : -9223372036854775808 ≤ completedTime iterations get ∧
      completedTime iterations get < 9223372036854775808) :
    ∃ r, testBandwidth iterations get = .ok r ∧
      r.avgDuration = Int.tdiv (completedTime iterations get) (iterations : Int) := by
  obtain ⟨b1, -⟩ := bandwidthLoop_totals iterations get
  rw [wrap64_eq hT.1 hT.2] at b1
  have hr := tdiv_in_range hT.1 hT.2 (show (0 : Int) < (iterations : Int) by omega)
  unfold testBandwidth
  dsimp only
  rw [goDiv_explicit _ (show ((iterations : Nat) : Int) ≠ 0 by omega), b1,
    wrap64_eq hr.1 hr.2]
  exact ⟨_, rfl, rfl⟩

/-! ## Rounding to the nearest integer -/

theorem roundHalfEven_exact {b : Nat} (hb : 0 < b) (x : Nat) : roundHalfEven (b * x) b = x := by
  unfold roundHalfEven
  rw [Nat.mul_mod_right, Nat.mul_div_cancel_left x hb, if_pos (by omega)]

theorem div_le_roundHalfEven (a b : Nat) : a / b ≤ roundHalfEven a b := by
  unfold roundHalfEven
  split
  · exact le_refl _
  · split
    · omega
    · split <;> omega

theorem roundHalfEven_le_succ (a b : Nat) : roundHalfEven a b ≤ a / b + 1 := by
  unfold roundHalfEven
  split
  · omega
  · split
    · omega
    · split <;> omega

theorem le_roundHalfEven {a b k : Nat} (hb : 0 < b) (h : b * k ≤ a) : k ≤ roundHalfEven a b := by
  have h1 : k ≤ a / b := (Nat.le_div_iff_mul_le hb).mpr (by rw [Nat.mul_comm]; exact h)
  exact le_trans h1 (div_le_roundHalfEven a b)

/-- A value below `M + 1/2` rounds to at most `M`. -/
theorem roundHalfEven_le_of_lt_half {a b M : Nat} (hb : 0 < b) (h : 2 * a < b * (2 * M + 1)) :
    roundHalfEven a b ≤ M := by
  have hdm := Nat.div_add_mod a b
  have hq : a / b ≤ M := by
    by_contra hc
    have h1 : b * (M + 1) ≤ b * (a / b) := Nat.mul_le_mul_left b (by omega)
    have e1 : b * (M + 1) = b * M + b := by ring
    have e2 : b * (2 * M + 1) = 2 * (b * M) + b := by ring
    omega
  rcases Nat.lt_or_ge (a / b) M with hlt | hge
  · exact le_trans (roundHalfEven_le_succ a b) hlt
  · have hqM : a / b = M := by omega
    have hr : 2 * (a % b) < b := by
      rw [hqM] at hdm
      have e2 : b * (2 * M + 1) = 2 * (b * M) + b := by ring
      omega
    unfold roundHalfEven
    rw [if_pos hr, hqM]

theorem roundHalfEven_le {a b M : Nat} (hb : 0 < b) (h : a ≤ b * M) : roundHalfEven a b ≤ M :=
  roundHalfEven_le_of_lt_half hb (by
    have e2 : b * (2 * M + 1) = 2 * (b * M) + b := by ring
    omega)

/-! ## Binary logarithm -/

theorem log2Fuel_spec : ∀ (fuel n : Nat), 0 < n → n < 2 ^ fuel →
    2 ^ log2Fuel fuel n ≤ n ∧ n < 2 ^ (log2Fuel fuel n + 1)
  | 0, n, h0, h => by simp at h; omega
  | fuel + 1, n, h0, h => by
    unfold log2Fuel
    by_cases h2 : n < 2
    · rw [if_pos h2]
      simp
      omega
    · rw [if_neg h2]
      have ih := log2Fuel_spec fuel (n / 2) (by omega) (by rw [pow_succ] at h; omega)
      rw [pow_succ, pow_succ]
      omega

theorem log2Fuel_self (n : Nat) (h0 : 0 < n) :
    2 ^ log2Fuel n n ≤ n ∧ n < 2 ^ (log2Fuel n n + 1) :=
  log2Fuel_spec n n h0 (Nat.lt_two_pow n)

/-- The lower half of the specification of `floorLog2`: `2^l ≤ num / den`. -/
theorem floorLog2_le (num den : Nat) (hn : 0 < num) (hd : 0 < den) :
    (0 ≤ floorLog2 num den → den * 2 ^ (floorLog2 num den).toNat ≤ num) ∧
    (floorLog2 num den < 0 → den ≤ num * 2 ^ (-(floorLog2 num den)).toNat) := by
  obtain ⟨a1, a2⟩ := log2Fuel_self num hn
  obtain ⟨b1, b2⟩ := log2Fuel_self den hd
  unfold floorLog2
  simp only
  by_cases h0l : 0 ≤ (log2Fuel num num : Int) - (log2Fuel den den : Int)
  · rw [if_pos h0l]
    by_cases ht : den * 2 ^ ((log2Fuel num num : Int) - (log2Fuel den den : Int)).toNat ≤ num
    · rw [if_pos ht]
      exact ⟨fun _ => ht, fun h => by omega⟩
    · rw [if_neg ht]
      refine ⟨fun h0 => ?_, fun h0 => ?_⟩
      · obtain ⟨k, hk⟩ : ∃ k : Nat, log2Fuel num num = log2Fuel den den + 1 + k :=
          ⟨log2Fuel num num - (log2Fuel den den + 1), by omega⟩
        have e : ((log2Fuel num num : Int) - (log2Fuel den den : Int) - 1).toNat = k := by omega
        rw [e]
        rw [hk] at a1
        have h3 : den * 2 ^ k ≤ 2 ^ (log2Fuel den den + 1) * 2 ^ k :=
          Nat.mul_le_mul_right _ (le_of_lt b2)
        rw [← pow_add] at h3
        omega
      · have hab : log2Fuel num num = log2Fuel den den := by omega
        have e : (-((log2Fuel num num : Int) - (log2Fuel den den : Int) - 1)).toNat = 1 := by omega
        rw [e]
        have h3 : 2 ^ log2Fuel num num * 2 ^ 1 ≤ num * 2 ^ 1 := Nat.mul_le_mul_right _ a1
        rw [← pow_add, hab] at h3
        omega
  · rw [if_neg h0l]
    obtain ⟨k, hk⟩ : ∃ k : Nat, log2Fuel den den = log2Fuel num num + k :=
      ⟨log2Fuel den den - log2Fuel num num, by omega⟩
    by_cases ht : den ≤ num * 2 ^ (-((log2Fuel num num : Int) - (log2Fuel den den : Int))).toNat
    · rw [if_pos ht]
      exact ⟨fun h => by omega, fun _ => ht⟩
    · rw [if_neg ht]
      refine ⟨fun h0 => by omega, fun _ => ?_⟩
      have e : (-((log2Fuel num num : Int) - (log2Fuel den den : Int) - 1)).toNat = k + 1 := by
        omega
      rw [e]
      have h3 : 2 ^ log2Fuel num num * 2 ^ (k + 1) ≤ num * 2 ^ (k + 1) :=
        Nat.mul_le_mul_right _ a1
      rw [← pow_add, ← add_assoc, ← hk] at h3
      omega

/-- A ratio below `2^K` has a binary logarithm below `K`. -/
theorem floorLog2_lt {num den K : Nat} (hn : 0 < num) (hd : 0 < den) (h : num < den * 2 ^ K) :
    floorLog2 num den < (K : Int) := by
  by_contra hc
  have h0 : 0 ≤ floorLog2 num den := by omega
  have h1 := (floorLog2_le num den hn hd).1 h0
  have h2 : 2 ^ K ≤ 2 ^ (floorLog2 num den).toNat :=
    Nat.pow_le_pow_right (by decide) (by omega)
  have h3 : den * 2 ^ K ≤ den * 2 ^ (floorLog2 num den).toNat := Nat.mul_le_mul_left den h2
  omega

/-! ## Rounding to binary64 -/

/-- A ratio that is an integer below `2^53` is rounded to itself. -/
theorem F64.round_exact (neg : Bool) {num den X : Nat} (hd : 0 < den) (h : num = den * X)
    (hX : X < 9007199254740992) :
    ∃ s : Nat, F64.round neg num den = .finite neg (X * 2 ^ s) (-(s : Int)) := by
  by_cases hX0 : X = 0
  · refine ⟨0, ?_⟩
    subst hX0
    simp [F64.round, h]
  · have hX1 : 0 < X := Nat.pos_of_ne_zero hX0
    have hn : 0 < num := by rw [h]; exact Nat.mul_pos hd hX1
    have hlt : num < den * 2 ^ 53 := by
      rw [h]; exact Nat.mul_lt_mul_of_pos_left (by norm_num; exact hX) hd
    have hL := floorLog2_lt hn hd hlt
    unfold F64.round
    rw [if_neg (by omega)]
    simp only
    generalize hE : max (floorLog2 num den - 52) (-1074) = e
    have he1 : e ≤ 0 := by rw [← hE]; omega
    by_cases he : 0 ≤ e
    · have he0 : e = 0 := by omega
      refine ⟨0, ?_⟩
      subst he0
      have hs : roundHalfEven num (den * 2 ^ (0 : Int).toNat) = X := by
        rw [h]
        simpa using roundHalfEven_exact hd X
      rw [if_pos (le_refl _), hs, if_neg (by omega)]
      simp
    · refine ⟨(-e).toNat, ?_⟩
      have hs : roundHalfEven (num * 2 ^ (-e).toNat) den = X * 2 ^ (-e).toNat := by
        rw [h, Nat.mul_assoc]
        exact roundHalfEven_exact hd _
      rw [if_neg he, hs, if_neg (by omega)]
      congr 1
      omega

/-- The quotient by 100 of an integer below `2^53` is rounded to a value with
the same integer part. -/
theorem F64.round_quot (neg : Bool) {num den X : Nat} (hd : 0 < den) (h : num * 100 = den * X)
    (hX : X < 9007199254740992) :
    ∃ sig s : Nat, F64.round neg num den = .finite neg sig (-(s : Int)) ∧
      sig / 2 ^ s = X / 100 := by
  by_cases hX0 : X = 0
  · refine ⟨0, 0, ?_, ?_⟩
    · subst hX0
      have hn : num = 0 := by omega
      simp [F64.round, hn]
    · subst hX0; simp
  · have hX1 : 0 < X := Nat.pos_of_ne_zero hX0
    have hn : 0 < num := by
      rcases Nat.eq_zero_or_pos num with h0 | h0
      · rw [h0] at h
        have := Nat.mul_pos hd hX1
        omega
      · exact h0
    have hlt : num < den * 2 ^ 47 := by
      have h1 : den * X < den * 9007199254740992 := Nat.mul_lt_mul_of_pos_left hX hd
      norm_num
      omega
    have hL := floorLog2_lt hn hd hlt
    unfold F64.round
    rw [if_neg (by omega)]
    simp only
    generalize hE : max (floorLog2 num den - 52) (-1074) = e
    have he1 : e ≤ -6 := by rw [← hE]; omega
    obtain ⟨s, hs⟩ : ∃ s : Nat, (-e).toNat = s := ⟨_, rfl⟩
    have hs6 : 6 ≤ s := by omega
    have hP : 64 ≤ 2 ^ s := by
      have := Nat.pow_le_pow_right (show 0 < 2 by decide) hs6
      norm_num at this
      exact this
    refine ⟨roundHalfEven (num * 2 ^ s) den, s, ?_, ?_⟩
    · rw [if_neg (by omega), hs, if_neg (by omega)]
      congr 1
      omega
    · obtain ⟨k, hk⟩ : ∃ k, X / 100 = k := ⟨_, rfl⟩
      rw [hk]
      have hk1 : k * 100 ≤ X := by omega
      have hk2 : X ≤ k * 100 + 99 := by omega
      generalize 2 ^ s = P at hP
      have hdk : den * k ≤ num := by
        have h1 : den * (k * 100) ≤ den * X := Nat.mul_le_mul_left den hk1
        have e : den * (k * 100) = (den * k) * 100 := by ring
        omega
      apply Nat.div_eq_of_lt_le
      · apply le_roundHalfEven hd
        calc den * (k * P) = (den * k) * P := by ring
          _ ≤ num * P := Nat.mul_le_mul_right P hdk
      · obtain ⟨M, hM⟩ : ∃ M, (k + 1) * P = M + 1 :=
          ⟨(k + 1) * P - 1, by
            have : 1 ≤ (k + 1) * P := Nat.mul_pos (by omega) (by omega)
            omega⟩
        have hle : roundHalfEven (num * P) den ≤ M := by
          apply roundHalfEven_le_of_lt_half hd
          have h100 : 100 * (num * P) = den * X * P := by rw [← h]; ring
          have hb : den * X * P ≤ den * (k * 100 + 99) * P :=
            Nat.mul_le_mul_right P (Nat.mul_le_mul_left den hk2)
          have e2 : den * (k * 100 + 99) * P = 100 * (den * k * P) + 99 * (den * P) := by ring
          have e3 : den * (2 * M + 1) + den = 2 * (den * k * P) + 2 * (den * P) := by
            have e4 : den * (2 * M + 1) + den = 2 * (den * (M + 1)) := by ring
            rw [e4, ← hM]; ring
          have hU : 64 * den ≤ den * P := by
            have := Nat.mul_le_mul_left den hP
            omega
          omega
        omega

/-! ## The index computed by `percentile` -/

theorem F64.ofInt_exact (i : Int) (h : i.natAbs < 9007199254740992) :
    ∃ s : Nat, F64.ofInt i = .finite (decide (i < 0)) (i.natAbs * 2 ^ s) (-(s : Int)) :=
  F64.round_exact _ (by decide) (by simp) h

theorem F64.mul_exact (n1 n2 : Bool) (A B s t : Nat) (h : A * B < 9007199254740992) :
    ∃ u : Nat, F64.mul (.finite n1 (A * 2 ^ s) (-(s : Int))) (.finite n2 (B * 2 ^ t) (-(t : Int)))
      = .finite (n1 != n2) (A * B * 2 ^ u) (-(u : Int)) := by
  simp only [F64.mul]
  by_cases h0 : 0 ≤ -(s : Int) + -(t : Int)
  · have hs : s = 0 := by omega
    have ht : t = 0 := by omega
    subst hs ht
    rw [if_pos h0]
    exact F64.round_exact _ (by decide) (by simp) h
  · rw [if_neg h0]
    have e : (-(-(s : Int) + -(t : Int))).toNat = s + t := by omega
    rw [e]
    exact F64.round_exact _ (Nat.pos_pow_of_pos _ (by decide)) (by rw [pow_add]; ring) h

theorem F64.div_hundred (n1 : Bool) (X u w : Nat) (h : X < 9007199254740992) :
    ∃ sig v : Nat,
      F64.div (.finite n1 (X * 2 ^ u) (-(u : Int))) (.finite false (100 * 2 ^ w) (-(w : Int)))
        = .finite n1 sig (-(v : Int)) ∧ sig / 2 ^ v = X / 100 := by
  simp only [F64.div]
  have hm2 : ¬ (100 * 2 ^ w = 0) := by
    have := Nat.pos_pow_of_pos w (show 0 < 2 by decide)
    omega
  have hneg : (n1 != false) = n1 := by cases n1 <;> rfl
  rw [if_neg hm2, hneg]
  by_cases h0 : 0 ≤ -(u : Int) - -(w : Int)
  · rw [if_pos h0]
    obtain ⟨d, hd⟩ : ∃ d : Nat, w = u + d := ⟨w - u, by omega⟩
    have e : (-(u : Int) - -(w : Int)).toNat = d := by omega
    rw [e]
    refine F64.round_quot n1 (by omega) ?_ h
    rw [hd, pow_add]; ring
  · rw [if_neg h0]
    obtain ⟨d, hd⟩ : ∃ d : Nat, u = w + d := ⟨u - w, by omega⟩
    have e : (-(-(u : Int) - -(w : Int))).toNat = d := by omega
    rw [e]
    refine F64.round_quot n1 (Nat.mul_pos (by omega) (Nat.pos_pow_of_pos _ (by decide))) ?_ h
    rw [hd, pow_add]; ring

theorem F64.toInt64_trunc (neg : Bool) (sig v k : Nat) (h : sig / 2 ^ v = k)
    (hk : k < 9223372036854775808) :
    F64.toInt64 (.finite neg sig (-(v : Int))) = if neg then -(k : Int) else (k : Int) := by
  unfold F64.toInt64
  have ht : (if 0 ≤ -(v : Int) then sig * 2 ^ (-(v : Int)).toNat
      else sig / 2 ^ (-(-(v : Int))).toNat) = k := by
    by_cases h0 : 0 ≤ -(v : Int)
    · have hv : v = 0 := by omega
      subst hv
      simpa using h
    · rw [if_neg h0]
      have e : (-(-(v : Int))).toNat = v := by omega
      rw [e, h]
  simp only [ht]
  cases neg
  · simp only [Bool.false_eq_true, if_false]
    rw [if_pos (by omega)]
  · simp only [if_true]
    rw [if_pos (by omega)]

/-- For a whole-number `p` with `n * |p| < 2^53` the float64 computation
`int(float64(n) * p / 100.0)` is exact: it is the truncated quotient of `n * p`
by 100. -/
theorem floatIndex_whole (n : Nat) (p : Int) (hn : n < 9007199254740992)
    (hp : p.natAbs < 9007199254740992) (h : n * p.natAbs < 9007199254740992) :
    floatIndex (n : Int) (F64.ofInt p) = Int.tdiv ((n : Int) * p) 100 := by
  obtain ⟨s, hs⟩ := F64.ofInt_exact (n : Int) (by simpa using hn)
  obtain ⟨t, ht⟩ := F64.ofInt_exact p hp
  obtain ⟨w, hw⟩ := F64.ofInt_exact 100 (by decide)
  have hnneg : decide ((n : Int) < 0) = false := by simp
  have hnabs : (n : Int).natAbs = n := by simp
  have h100 : decide ((100 : Int) < 0) = false := by decide
  have h100abs : (100 : Int).natAbs = 100 := by decide
  rw [hnneg, hnabs] at hs
  rw [h100, h100abs] at hw
  obtain ⟨u, hu⟩ := F64.mul_exact false (decide (p < 0)) n p.natAbs s t h
  obtain ⟨sig, v, hdiv, htr⟩ :=
    F64.div_hundred (false != decide (p < 0)) (n * p.natAbs) u w h
  unfold floatIndex
  rw [hs, ht, hw, hu, hdiv, F64.toInt64_trunc _ sig v _ htr (by omega)]
  by_cases hneg : p < 0
  · have e : (n : Int) * p = -((n * p.natAbs : Nat) : Int) := by
      push_cast
      rw [abs_of_neg hneg]
      ring
    rw [e, Int.neg_tdiv, Int.tdiv_eq_ediv (by positivity) (by decide)]
    simp [hneg]
  · have e : (n : Int) * p = ((n * p.natAbs : Nat) : Int) := by
      push_cast
      rw [abs_of_nonneg (by omega)]
    rw [e, Int.tdiv_eq_ediv (by positivity) (by decide)]
    simp [hneg]

/-! ## Bounds preserved by rounding -/

/-- A ratio of at most `2^K` is rounded to a finite value of at most `2^K`. -/
theorem F64.round_le (neg : Bool) {num den K : Nat} (hd : 0 < den) (h : num ≤ den * 2 ^ K)
    (hK : K ≤ 1023) :
    ∃ sig e, F64.round neg num den = .finite neg sig e ∧ F64.magLE sig e (2 ^ K) := by
  by_cases hn0 : num = 0
  · refine ⟨0, 0, by simp [F64.round, hn0], ?_⟩
    simp [F64.magLE]
  · have hn : 0 < num := Nat.pos_of_ne_zero hn0
    have hlt : num < den * 2 ^ (K + 1) := by
      have : den * 2 ^ K < den * 2 ^ (K + 1) :=
        Nat.mul_lt_mul_of_pos_left (Nat.pow_lt_pow_right (by decide) (by omega)) hd
      omega
    have hL := floorLog2_lt hn hd hlt
    unfold F64.round
    rw [if_neg hn0]
    simp only
    generalize hE : max (floorLog2 num den - 52) (-1074) = e
    have he1 : e ≤ 971 := by rw [← hE]; omega
    have he2 : 0 ≤ e → e + 52 ≤ K := by rw [← hE]; omega
    by_cases he : 0 ≤ e
    · obtain ⟨j, hj⟩ : ∃ j : Nat, K = e.toNat + 52 + j := ⟨K - (e.toNat + 52), by omega⟩
      have hsig : roundHalfEven num (den * 2 ^ e.toNat) ≤ 2 ^ (52 + j) := by
        apply roundHalfEven_le (Nat.mul_pos hd (Nat.pos_pow_of_pos _ (by decide)))
        rw [Nat.mul_assoc, ← pow_add, show e.toNat + (52 + j) = K by omega]
        exact h
      have hsig2 : roundHalfEven num (den * 2 ^ e.toNat) * 2 ^ e.toNat ≤ 2 ^ K := by
        have := Nat.mul_le_mul_right (2 ^ e.toNat) hsig
        rw [← pow_add, show 52 + j + e.toNat = K by omega] at this
        exact this
      rw [if_pos he]
      by_cases hov : 971 < e ∨ (e = 971 ∧
          9007199254740992 ≤ roundHalfEven num (den * 2 ^ e.toNat))
      · exfalso
        rcases hov with h1 | ⟨h1, h2⟩
        · omega
        · have hj0 : j = 0 := by omega
          rw [hj0] at hsig
          norm_num at hsig
          omega
      · rw [if_neg hov]
        refine ⟨_, _, rfl, ?_⟩
        unfold F64.magLE
        rw [if_pos he]
        exact hsig2
    · rw [if_neg he, if_neg (by omega)]
      refine ⟨_, _, rfl, ?_⟩
      unfold F64.magLE
      rw [if_neg he]
      apply roundHalfEven_le hd
      rw [← Nat.mul_assoc]
      exact Nat.mul_le_mul_right _ h

theorem F64.mul_le (n s m : Nat) (e : Int) (K : Nat) (h : F64.magLE (n * m) e (2 ^ K))
    (hK : K ≤ 1023) :
    ∃ sig e', F64.mul (.finite false (n * 2 ^ s) (-(s : Int))) (.finite false m e)
      = .finite false sig e' ∧ F64.magLE sig e' (2 ^ K) := by
  simp only [F64.mul]
  have hneg : (false != false) = false := rfl
  rw [hneg]
  unfold F64.magLE at h
  by_cases h0 : 0 ≤ -(s : Int) + e
  · rw [if_pos h0]
    obtain ⟨d, hd⟩ : ∃ d : Nat, (-(s : Int) + e).toNat = d := ⟨_, rfl⟩
    have he : e.toNat = s + d := by omega
    rw [if_pos (by omega), he] at h
    rw [hd]
    apply F64.round_le false (by decide) _ hK
    have e1 : n * 2 ^ s * m * 2 ^ d = n * m * 2 ^ (s + d) := by rw [pow_add]; ring
    rw [e1, Nat.one_mul]
    exact h
  · rw [if_neg h0]
    obtain ⟨d, hd⟩ : ∃ d : Nat, (-(-(s : Int) + e)).toNat = d := ⟨_, rfl⟩
    rw [hd]
    apply F64.round_le false (Nat.pos_pow_of_pos _ (by decide)) _ hK
    by_cases hee : 0 ≤ e
    · obtain ⟨j, hj⟩ : ∃ j : Nat, e.toNat = j := ⟨_, rfl⟩
      rw [if_pos hee, hj] at h
      have hs : s = j + d := by omega
      have e1 : n * 2 ^ s * m = n * m * 2 ^ j * 2 ^ d := by rw [hs, pow_add]; ring
      rw [e1, Nat.mul_comm (2 ^ d)]
      exact Nat.mul_le_mul_right _ h
    · obtain ⟨j, hj⟩ : ∃ j : Nat, (-e).toNat = j := ⟨_, rfl⟩
      rw [if_neg hee, hj] at h
      have hs : d = j + s := by omega
      have e1 : n * 2 ^ s * m = n * m * 2 ^ s := by ring
      have e2 : 2 ^ d * 2 ^ K = 2 ^ K * 2 ^ j * 2 ^ s := by rw [hs, pow_add]; ring
      rw [e1, e2]
      exact Nat.mul_le_mul_right _ h

theorem F64.div_hundred_le (sig : Nat) (e : Int) (w K : Nat)
    (h : F64.magLE sig e (2 ^ (K + 6))) (hK : K ≤ 1023) :
    ∃ sig2 e2, F64.div (.finite false sig e) (.finite false (100 * 2 ^ w) (-(w : Int)))
      = .finite false sig2 e2 ∧ F64.magLE sig2 e2 (2 ^ K) := by
  simp only [F64.div]
  have hm2 : ¬ (100 * 2 ^ w = 0) := by
    have := Nat.pos_pow_of_pos w (show 0 < 2 by decide)
    omega
  have hneg : (false != false) = false := rfl
  have h64 : 2 ^ (K + 6) = 64 * 2 ^ K := by rw [pow_add]; norm_num; ring
  rw [if_neg hm2, hneg]
  unfold F64.magLE at h
  rw [h64] at h
  by_cases h0 : 0 ≤ e - -(w : Int)
  · rw [if_pos h0]
    obtain ⟨d, hd⟩ : ∃ d : Nat, (e - -(w : Int)).toNat = d := ⟨_, rfl⟩
    rw [hd]
    apply F64.round_le false (by omega) _ hK
    by_cases hee : 0 ≤ e
    · obtain ⟨j, hj⟩ : ∃ j : Nat, e.toNat = j := ⟨_, rfl⟩
      rw [if_pos hee, hj] at h
      have hdj : d = j + w := by omega
      have e1 : sig * 2 ^ d = sig * 2 ^ j * 2 ^ w := by rw [hdj, pow_add]; ring
      have h1 : sig * 2 ^ j * 2 ^ w ≤ 64 * 2 ^ K * 2 ^ w := Nat.mul_le_mul_right _ h
      have h2 : 64 * 2 ^ K * 2 ^ w ≤ 100 * 2 ^ w * 2 ^ K := by
        have e2 : 100 * 2 ^ w * 2 ^ K = 100 * (2 ^ K * 2 ^ w) := by ring
        have e3 : 64 * 2 ^ K * 2 ^ w = 64 * (2 ^ K * 2 ^ w) := by ring
        omega
      rw [e1]
      exact le_trans h1 h2
    · obtain ⟨j, hj⟩ : ∃ j : Nat, (-e).toNat = j := ⟨_, rfl⟩
      rw [if_neg hee, hj] at h
      have hw : w = j + d := by omega
      have h1 : sig * 2 ^ d ≤ 64 * 2 ^ K * 2 ^ j * 2 ^ d := Nat.mul_le_mul_right _ h
      have e2 : 100 * 2 ^ w * 2 ^ K = 100 * (2 ^ K * 2 ^ j * 2 ^ d) := by
        rw [hw, pow_add]; ring
      have e3 : 64 * 2 ^ K * 2 ^ j * 2 ^ d = 64 * (2 ^ K * 2 ^ j * 2 ^ d) := by ring
      omega
  · rw [if_neg h0]
    obtain ⟨d, hd⟩ : ∃ d : Nat, (-(e - -(w : Int))).toNat = d := ⟨_, rfl⟩
    rw [hd]
    apply F64.round_le false
      (Nat.mul_pos (by omega) (Nat.pos_pow_of_pos _ (by decide))) _ hK
    obtain ⟨j, hj⟩ : ∃ j : Nat, (-e).toNat = j := ⟨_, rfl⟩
    rw [if_neg (by omega), hj] at h
    have hjw : j = w + d := by omega
    have e2 : 100 * 2 ^ w * 2 ^ d * 2 ^ K = 100 * (2 ^ K * 2 ^ j) := by
      rw [hjw, pow_add]; ring
    have e3 : 64 * 2 ^ K * 2 ^ j = 64 * (2 ^ K * 2 ^ j) := by ring
    omega

theorem F64.toInt64_nonneg (sig : Nat) (e : Int) (h : F64.magLE sig e (2 ^ 62)) :
    0 ≤ F64.toInt64 (.finite false sig e) := by
  have ht : (if 0 ≤ e then sig * 2 ^ e.toNat else sig / 2 ^ (-e).toNat) ≤ 2 ^ 62 := by
    unfold F64.magLE at h
    by_cases he : 0 ≤ e
    · rw [if_pos he] at h ⊢
      exact h
    · rw [if_neg he] at h ⊢
      exact Nat.div_le_of_le_mul (by rw [Nat.mul_comm]; exact h)
  unfold F64.toInt64
  simp only [Bool.false_eq_true, if_false]
  generalize (if 0 ≤ e then sig * 2 ^ e.toNat else sig / 2 ^ (-e).toNat) = t at ht
  norm_num at ht
  rw [if_pos (by omega)]
  omega

/-- A finite `p ≥ 0` with `n * p ≤ 2^62` yields a non-negative index. -/
theorem floatIndex_nonneg (n m : Nat) (e : Int) (hn : n < 9007199254740992)
    (h : F64.magLE (n * m) e (2 ^ 62)) :
    0 ≤ floatIndex (n : Int) (.finite false m e) := by
  obtain ⟨s, hs⟩ := F64.ofInt_exact (n : Int) (by simpa using hn)
  obtain ⟨w, hw⟩ := F64.ofInt_exact 100 (by decide)
  have hnneg : decide ((n : Int) < 0) = false := by simp
  have hnabs : (n : Int).natAbs = n := by simp
  have h100 : decide ((100 : Int) < 0) = false := by decide
  have h100abs : (100 : Int).natAbs = 100 := by decide
  rw [hnneg, hnabs] at hs
  rw [h100, h100abs] at hw
  obtain ⟨sig, e', hmul, hle⟩ := F64.mul_le n s m e 62 h (by decide)
  obtain ⟨sig2, e2, hdiv, hle2⟩ := F64.div_hundred_le sig e' w 56 hle (by decide)
  unfold floatIndex
  rw [hs, hw, hmul, hdiv]
  apply F64.toInt64_nonneg
  unfold F64.magLE at hle2 ⊢
  have hp : (2 : Nat) ^ 56 ≤ 2 ^ 62 := by norm_num
  split
  · rename_i h1
    rw [if_pos h1] at hle2
    omega
  · rename_i h1
    rw [if_neg h1] at hle2
    exact le_trans hle2 (Nat.mul_le_mul_right _ hp)

/-! ## `percentile` with its `float64` argument -/

/-- A non-negative index is clamped to `n - 1` and selects an element. -/
theorem percentileF64_of_nonneg (data : List Int) (p : F64) (hne : data ≠ [])
    (h : 0 ≤ floatIndex (data.length : Int) p) :
    percentileF64 data p = .ok ((sortSlice data).getD
      (min (floatIndex (data.length : Int) p).toNat (data.length - 1)) 0) := by
  have hlen := sortSlice_length data
  have hpos : 0 < data.length := List.length_pos.mpr hne
  unfold percentileF64
  simp only [hlen]
  obtain ⟨k, hk⟩ := Int.eq_ofNat_of_zero_le h
  rw [hk]
  by_cases hc : (k : Int) ≥ (data.length : Int)
  · rw [if_pos hc]
    have e : ((data.length : Nat) : Int) - 1 = ((data.length - 1 : Nat) : Int) := by omega
    rw [e, index_natCast _ _ (by omega)]
    congr 2
    omega
  · rw [if_neg hc, index_natCast _ _ (by omega)]
    congr 2
    omega

/-- A negative index is not clamped and is out of range. -/
theorem percentileF64_of_neg (data : List Int) (p : F64)
    (h : floatIndex (data.length : Int) p < 0) :
    percentileF64 data p = .error Panic.indexOutOfRange := by
  have hlen := sortSlice_length data
  unfold percentileF64
  simp only [hlen]
  rw [if_neg (by omega)]
  unfold index
  rw [if_neg (by omega)]

/-- At a whole-number percentile, where the product `n * p` is below `2^53`,
the `float64` computation of `percentile` is the integer computation. -/
theorem percentileF64_ofInt (data : List Int) (p : Int)
    (hn : data.length < 9007199254740992) (hp : p.natAbs < 9007199254740992)
    (h : data.length * p.natAbs < 9007199254740992) :
    percentileF64 data (F64.ofInt p) = percentile data p := by
  have hlen := sortSlice_length data
  unfold percentileF64 percentile
  simp only [hlen]
  rw [floatIndex_whole data.length p hn hp h]

theorem F64.magLE_scale {n m : Nat} {e : Int} (hn : n * 100 < 9007199254740992)
    (h : F64.magLE m e 100) : F64.magLE (n * m) e (2 ^ 62) := by
  unfold F64.magLE at h ⊢
  have h62 : (2 : Nat) ^ 62 = 4611686018427387904 := by norm_num
  rw [h62]
  by_cases he : 0 ≤ e
  · rw [if_pos he] at h ⊢
    have h1 : n * (m * 2 ^ e.toNat) ≤ n * 100 := Nat.mul_le_mul_left n h
    rw [Nat.mul_assoc]
    omega
  · rw [if_neg he] at h ⊢
    have h1 : n * m ≤ n * (100 * 2 ^ (-e).toNat) := Nat.mul_le_mul_left n h
    have h2 : n * (100 * 2 ^ (-e).toNat) = n * 100 * 2 ^ (-e).toNat := by ring
    have h3 : n * 100 * 2 ^ (-e).toNat ≤ 4611686018427387904 * 2 ^ (-e).toNat :=
      Nat.mul_le_mul_right _ (by omega)
    omega

/-! ## C1: median -/

/-- C1. For a non-empty list of non-negative durations, `median` returns the
central element of the ascending sort when the length is odd, and the
(integer) average of the two central elements when it is even, provided the
sum of those two does not overflow `int64`. The ascending sort is any list `s`
that is sorted and a permutation of the data. -/
theorem median_central (data s : List Int) (hne : data ≠ [])
    (hs : s.Sorted (· ≤ ·)) (hp : s.Perm data) (hnn : ∀ d ∈ data, 0 ≤ d)
    (hsum : data.length % 2 = 0 →
      s.getD (data.length / 2 - 1) 0 + s.getD (data.length / 2) 0 < 9223372036854775808) :
    median data = .ok
      (if data.length % 2 = 1 then s.getD (data.length / 2) 0
       else (s.getD (data.length / 2 - 1) 0 + s.getD (data.length / 2) 0) / 2) := by
  have hlen : s.length = data.length := hp.length_eq
  have hpos : 0 < data.length := List.length_pos.mpr hne
  have hmem : ∀ i, i < s.length → 0 ≤ s.getD i 0 := by
    intro i hi
    rw [List.getD_eq_getElem _ _ hi]
    exact hnn _ (hp.subset (List.getElem_mem hi))
  rw [median_explicit data hne, sortSlice_unique hs hp]
  by_cases hpar : data.length % 2 = 0
  · rw [if_pos hpar, if_neg (by omega)]
    have ha := hmem (data.length / 2 - 1) (by omega)
    have hb := hmem (data.length / 2) (by omega)
    have hab := hsum hpar
    have hw : wrap64 (s.getD (data.length / 2 - 1) 0 + s.getD (data.length / 2) 0)
        = s.getD (data.length / 2 - 1) 0 + s.getD (data.length / 2) 0 :=
      wrap64_eq (by omega) (by omega)
    rw [hw, Int.tdiv_eq_ediv (by omega) (by omega), wrap64_eq (by omega) (by omega)]
  · rw [if_neg hpar, if_pos (by omega)]

/-- C1 at the two inputs of the specification (milliseconds written in
nanoseconds): `median [10,20,30,40] ms = 25 ms` and `median [10,20,30] ms = 20 ms`. -/
theorem median_central_witness :
    median [10000000, 20000000, 30000000, 40000000] = .ok 25000000 ∧
    median [30000000, 10000000, 20000000] = .ok 20000000 :=
  ⟨median_central [10000000, 20000000, 30000000, 40000000]
      [10000000, 20000000, 30000000, 40000000] (by decide) (by decide) (List.Perm.refl _)
      (by decide) (by decide),
   median_central [30000000, 10000000, 20000000] [10000000, 20000000, 30000000]
      (by decide) (by decide) (by decide) (by decide) (by decide)⟩

/-! ## C2: percentile -/

set_option maxRecDepth 100000 in
/-- C2 fails as stated. For six durations and `p = 83.33333333333333`, a
`float64` in `[0, 100]`, the product `float64(6) * p` is the tie `500 - 2^-45`
and rounds to `500.0`; the index is `int(500.0 / 100.0) = 5` and the call
returns the sixth smallest duration, while `floor(6 * p / 100) = 4` names the
fifth. -/
theorem percentile_fractional_counterexample :
    fractionalPercent = .finite false 5864062014805333 (-46) ∧
    F64.magLE 5864062014805333 (-46) 100 ∧
    6 * 5864062014805333 / (100 * 2 ^ 46) = 4 ∧
    floatIndex 6 fractionalPercent = 5 ∧
    percentileF64 [1, 2, 3, 4, 5, 6] fractionalPercent = .ok 6 ∧
    ([1, 2, 3, 4, 5, 6] : List Int).getD (min 4 (6 - 1)) 0 = 5 := by
  decide

/-- C2 as amended. For a non-empty list of `n` durations with `n * 100 < 2^53`
and its ascending sort `s` (any sorted permutation of the data): at every
whole-number percentile `0 ≤ p ≤ 100`, `percentile` returns the element of `s`
at index `min (n * p / 100) (n - 1)` (nearest rank, no interpolation); at every
finite `float64` `p` with `0 ≤ p ≤ 100` it does not panic and returns the
element of `s` at the index `int(float64(n) * p / 100.0)`, computed in
`float64`, clamped to `n - 1`. -/
theorem percentile_nearest_rank (data s : List Int) (hne : data ≠ [])
    (hs : s.Sorted (· ≤ ·)) (hp : s.Perm data)
    (hn : data.length * 100 < 9007199254740992) :
    (∀ p : Nat, p ≤ 100 →
      percentileF64 data (F64.ofInt (p : Int)) =
        .ok (s.getD (min (data.length * p / 100) (data.length - 1)) 0)) ∧
    (∀ (m : Nat) (e : Int), F64.magLE m e 100 →
      0 ≤ floatIndex (data.length : Int) (.finite false m e) ∧
      percentileF64 data (.finite false m e) =
        .ok (s.getD (min (floatIndex (data.length : Int) (.finite false m e)).toNat
          (data.length - 1)) 0)) := by
  have hpos : 0 < data.length := List.length_pos.mpr hne
  constructor
  · intro p hp100
    have hprod : data.length * p ≤ data.length * 100 := Nat.mul_le_mul_left _ hp100
    rw [percentileF64_ofInt data (p : Int) (by omega) (by simp; omega) (by simp; omega),
      percentile_explicit data p hne hp100, sortSlice_unique hs hp]
  · intro m e hle
    have h0 : 0 ≤ floatIndex (data.length : Int) (.finite false m e) :=
      floatIndex_nonneg data.length m e (by omega) (F64.magLE_scale hn hle)
    refine ⟨h0, ?_⟩
    rw [percentileF64_of_nonneg data _ hne h0, sortSlice_unique hs hp]

set_option maxRecDepth 100000 in
/-- C2 as amended, at the input of the specification (over the 100 durations
1..100 ms, `P90 = 91 ms` and `P99 = 100 ms`) and at `p = 83.33333333333333`. -/
theorem percentile_nearest_rank_witness :
    percentileF64 oneToHundredMs (F64.ofInt 90) = .ok 91000000 ∧
    percentileF64 oneToHundredMs (F64.ofInt 99) = .ok 100000000 ∧
    percentileF64 oneToHundredMs (.finite false 5864062014805333 (-46)) = .ok 84000000 :=
  have h := percentile_nearest_rank oneToHundredMs oneToHundredMs (by decide) (by decide)
    (List.Perm.refl _) (by decide)
  ⟨h.1 90 (by decide), h.1 99 (by decide),
    (h.2 5864062014805333 (-46) (by decide)).2⟩

/-! ## C3: trimmed mean -/

/-- C3. When the recorded durations `data` are non-empty and non-negative and
the sum of the `max 1 (n / 5)` fastest fits `int64`, `testHTTP2` and `testHTTP3`
of benchmark.go and of router_benchmark.go return, and their `top20Avg` is the
integer mean of the first `max 1 (n / 5)` elements of the ascending sort `s`
(any sorted permutation of the data). -/
theorem top20Avg_trimmed_mean (iterations : Nat) (get : Nat → Trial) (data s : List Int)
    (hdata : (measurementLoop iterations get).durations = data) (hne : data ≠ [])
    (hs : s.Sorted (· ≤ ·)) (hp : s.Perm data) (hnn : ∀ d ∈ data, 0 ≤ d)
    (hsum : (s.take (max 1 (data.length / 5))).sum < 9223372036854775808) :
    (∃ r, testHTTP2 iterations get = .ok r ∧
      r.top20Avg = (s.take (max 1 (data.length / 5))).sum / (max 1 (data.length / 5) : Nat)) ∧
    (∃ r, testHTTP3 iterations get = .ok r ∧
      r.top20Avg = (s.take (max 1 (data.length / 5))).sum / (max 1 (data.length / 5) : Nat)) ∧
    (∃ r, Router.testHTTP2 iterations get = .ok (some r) ∧
      r.top20Avg = (s.take (max 1 (data.length / 5))).sum / (max 1 (data.length / 5) : Nat)) ∧
    (∃ r, Router.testHTTP3 iterations get = .ok (some r) ∧
      r.top20Avg = (s.take (max 1 (data.length / 5))).sum / (max 1 (data.length / 5) : Nat)) := by
  have hne2 : (measurementLoop iterations get).durations ≠ [] := by rw [hdata]; exact hne
  have hpos : 0 < data.length := List.length_pos.mpr hne
  have hk : 0 < max 1 (data.length / 5) := by omega
  have htop : top20Avg data = .ok
      ((s.take (max 1 (data.length / 5))).sum / (max 1 (data.length / 5) : Nat)) := by
    have h := top20Avg_value data hne hnn
      (by rw [sortSlice_unique hs hp, top20Count_eq_max]; exact hsum)
    rw [sortSlice_unique hs hp, top20Count_eq_max] at h
    exact h
  obtain ⟨m, p90, p95, p99, t, hm, h90, h95, h99, ht, hst⟩ :=
    statistics_explicit (measurementLoop iterations get) hne2
  rw [hdata] at ht hm h90 h95 h99
  have htv : t = (s.take (max 1 (data.length / 5))).sum / (max 1 (data.length / 5) : Nat) := by
    rw [htop] at ht
    exact (Except.ok.inj ht).symm
  have hrouter : routerStatistics (measurementLoop iterations get) = .ok (some
      ⟨wrap64 (Int.tdiv (measurementLoop iterations get).totalDuration data.length),
        m, t, p90, p95, p99⟩) := by
    unfold routerStatistics
    rw [hdata, if_neg (by omega),
      goDiv_explicit _ (show ((data.length : Nat) : Int) ≠ 0 by omega), hm, h90, h95, h99, ht]
    rfl
  exact ⟨⟨_, hst, htv⟩, ⟨_, hst, htv⟩, ⟨_, hrouter, htv⟩, ⟨_, hrouter, htv⟩⟩

/-- C3 at ten successful trials of 10, 20, ..., 100 ns in some order: the
trimmed mean is the mean of the two fastest, 15 ns. -/
theorem top20Avg_trimmed_mean_witness :
    (∃ r, testHTTP2 10 (allSucceed [100, 30, 20, 90, 80, 70, 60, 50, 40, 10]) = .ok r ∧
      r.top20Avg = 15) ∧
    (∃ r, testHTTP3 10 (allSucceed [100, 30, 20, 90, 80, 70, 60, 50, 40, 10]) = .ok r ∧
      r.top20Avg = 15) ∧
    (∃ r, Router.testHTTP2 10 (allSucceed [100, 30, 20, 90, 80, 70, 60, 50, 40, 10])
        = .ok (some r) ∧ r.top20Avg = 15) ∧
    (∃ r, Router.testHTTP3 10 (allSucceed [100, 30, 20, 90, 80, 70, 60, 50, 40, 10])
        = .ok (some r) ∧ r.top20Avg = 15) :=
  top20Avg_trimmed_mean 10 (allSucceed [100, 30, 20, 90, 80, 70, 60, 50, 40, 10])
    [100, 30, 20, 90, 80, 70, 60, 50, 40, 10] [10, 20, 30, 40, 50, 60, 70, 80, 90, 100]
    (by decide) (by decide) (by decide) (by decide) (by decide) (by decide)

/-! ## C4: outlier count -/

/-- C4 fails as stated. For the durations `[10, 10, 10, 89]` the arithmetic mean
is `119 / 4 = 29.75` and no duration exceeds three times it (`89.25`), yet
`testHTTP2` prints one outlier: the threshold is three times `avgDuration`,
the mean truncated to a whole nanosecond (`29`, threshold `87`). -/
theorem outliers_exact_mean_counterexample :
    testHTTP2 4 (allSucceed [10, 10, 10, 89]) = .ok ⟨29, 10, 10, 89, 89, 89, 10, 89, 1⟩ ∧
    3 * exactMean [10, 10, 10, 89] = 357 / 4 ∧
    ([10, 10, 10, 89] : List Int).countP
      (fun d => decide ((d : ℚ) > 3 * exactMean [10, 10, 10, 89])) = 0 := by
  have hm : 3 * exactMean [10, 10, 10, 89] = 357 / 4 := by
    simp [exactMean]
    norm_num
  refine ⟨by decide, hm, ?_⟩
  rw [hm]
  simp [List.countP_cons]
  norm_num

/-- C4 as amended. When the recorded durations `data` are non-empty and
non-negative, their sum fits `int64` and so does three times their mean,
`testHTTP2` and `testHTTP3` of benchmark.go return, and their outlier count is
the number of durations strictly greater than three times `avgDuration`, the
integer mean `sum / n` (truncating division) of line 107. -/
theorem outliers_above_three_means (iterations : Nat) (get : Nat → Trial) (data : List Int)
    (hdata : (measurementLoop iterations get).durations = data) (hne : data ≠ [])
    (hnn : ∀ d ∈ data, 0 ≤ d) (hsum : data.sum < 9223372036854775808)
    (hthr : 3 * (data.sum / (data.length : Int)) < 9223372036854775808) :
    (∃ r, testHTTP2 iterations get = .ok r ∧ r.avgDuration = data.sum / (data.length : Int) ∧
      r.outliers = data.countP (fun d => decide (d > 3 * (data.sum / (data.length : Int))))) ∧
    (∃ r, testHTTP3 iterations get = .ok r ∧ r.avgDuration = data.sum / (data.length : Int) ∧
      r.outliers = data.countP (fun d => decide (d > 3 * (data.sum / (data.length : Int))))) := by
  have hne2 : (measurementLoop iterations get).durations ≠ [] := by rw [hdata]; exact hne
  have hpos : 0 < data.length := List.length_pos.mpr hne
  have h0 : 0 ≤ data.sum := List.sum_nonneg hnn
  have hq0 : 0 ≤ data.sum / (data.length : Int) := Int.ediv_nonneg h0 (by omega)
  have havg := avgDuration_value iterations get data hdata hne hnn hsum
  obtain ⟨m, p90, p95, p99, t, -, -, -, -, -, hst⟩ :=
    statistics_explicit (measurementLoop iterations get) hne2
  rw [havg, countOutliers_eq_countP, hdata] at hst
  have hmul : wrap64 (data.sum / (data.length : Int) * 3) = 3 * (data.sum / (data.length : Int)) := by
    rw [wrap64_eq (by omega) (by omega)]
    ring
  rw [hmul] at hst
  exact ⟨⟨_, hst, rfl, rfl⟩, ⟨_, hst, rfl, rfl⟩⟩

/-- C4 as amended, at the input of the specification: for `[10,10,10,10,100]`
the mean is 28, the threshold 84 and the outlier count 1. -/
theorem outliers_above_three_means_witness :
    (∃ r, testHTTP2 5 (allSucceed [10, 10, 10, 10, 100]) = .ok r ∧ r.avgDuration = 28 ∧
      r.outliers = 1) ∧
    (∃ r, testHTTP3 5 (allSucceed [10, 10, 10, 10, 100]) = .ok r ∧ r.avgDuration = 28 ∧
      r.outliers = 1) :=
  outliers_above_three_means 5 (allSucceed [10, 10, 10, 10, 100]) [10, 10, 10, 10, 100]
    (by decide) (by decide) (by decide) (by decide) (by decide)

/-! ## C5: no successful trial -/

/-- C5 (code behaviour at the failing input). When every measured trial fails,
`testHTTP2`/`testHTTP3` of benchmark.go and the two functions of
scheduler_analysis.go panic with an integer division by zero at
`totalDuration / time.Duration(len(durations))`; only the two functions of
router_benchmark.go return early without computing a statistic. -/
theorem all_trials_failed (iterations : Nat) (get : Nat → Trial)
    (hall : ∀ i, i < iterations → (get i).err = true) :
    testHTTP2 iterations get = .error Panic.divideByZero ∧
    testHTTP3 iterations get = .error Panic.divideByZero ∧
    testHTTP2WithSchedulerAnalysis iterations get = .error Panic.divideByZero ∧
    testHTTP3WithSchedulerAnalysis iterations get = .error Panic.divideByZero ∧
    Router.testHTTP2 iterations get = .ok none ∧
    Router.testHTTP3 iterations get = .ok none := by
  have hd : (measurementLoop iterations get).durations = [] := by
    rw [measurementLoop_durations, succeeded_eq_nil hall]; rfl
  have hsd : (schedLoop iterations get).durations = [] := by
    rw [schedLoop_durations, succeeded_eq_nil hall]; rfl
  have hst : statistics (measurementLoop iterations get) = .error Panic.divideByZero := by
    unfold statistics
    rw [hd]
    rfl
  have hsched : schedStatistics iterations (schedLoop iterations get)
      = .error Panic.divideByZero := by
    unfold schedStatistics
    rw [hsd]
    rfl
  have hrouter : routerStatistics (measurementLoop iterations get) = .ok none := by
    unfold routerStatistics
    rw [hd]
    rfl
  exact ⟨hst, hst, hsched, hsched, hrouter, hrouter⟩

/-- C5 at five trials that all fail with a connection error. -/
theorem all_trials_failed_witness :
    testHTTP2 5 (fun _ => Trial.connError 1000) = .error Panic.divideByZero ∧
    testHTTP3 5 (fun _ => Trial.connError 1000) = .error Panic.divideByZero ∧
    testHTTP2WithSchedulerAnalysis 5 (fun _ => Trial.connError 1000)
      = .error Panic.divideByZero ∧
    testHTTP3WithSchedulerAnalysis 5 (fun _ => Trial.connError 1000)
      = .error Panic.divideByZero ∧
    Router.testHTTP2 5 (fun _ => Trial.connError 1000) = .ok none ∧
    Router.testHTTP3 5 (fun _ => Trial.connError 1000) = .ok none :=
  all_trials_failed 5 (fun _ => Trial.connError 1000) (fun _ _ => rfl)

/-! ## C6: trial isolation -/

/-- C6 fails as stated. With a connection error on trial 3 of 10 the loop issues
10 requests but records 9 durations, none of them the failed trial's; with a
failure on trial 2 of 5 it records 4, and the entry at position 1 is the third
trial's success. -/
theorem trial_isolation_counterexample :
    (measurementLoop 10 thirdOfTenFails).requests = 10 ∧
    (measurementLoop 10 thirdOfTenFails).durations
      = [100, 101, 103, 104, 105, 106, 107, 108, 109] ∧
    (measurementLoop 10 thirdOfTenFails).durations.length ≠ 10 ∧
    (measurementLoop 5 secondOfFiveFails).durations = [100, 102, 103, 104] ∧
    (measurementLoop 5 secondOfFiveFails).durations.length ≠ 5 := by
  decide

/-- C6 as amended. The loop of `testHTTP2`/`testHTTP3` issues exactly
`iterations` requests whatever the outcomes; it records the elapsed times of
the successful trials only, in trial order, so the number of records is the
number of successes; a failed trial leaves nothing but a log line carrying its
trial number. -/
theorem trial_isolation (iterations : Nat) (get : Nat → Trial) :
    (measurementLoop iterations get).requests = iterations ∧
    (measurementLoop iterations get).durations
      = (succeeded iterations get).map (fun i => (get i).elapsed) ∧
    (measurementLoop iterations get).durations.length + (failed iterations get).length
      = iterations ∧
    (measurementLoop iterations get).errorLog = (failed iterations get).map (fun i => i + 1) := by
  refine ⟨?_, measurementLoop_durations iterations get, ?_, ?_⟩
  · unfold measurementLoop
    rw [foldl_loopBody_requests]
    simp [LoopState.init]
  · rw [measurementLoop_durations, List.length_map]
    unfold succeeded failed
    have h := List.length_eq_length_filter_add (l := List.range iterations)
      (fun i => (get i).err)
    rw [List.length_range] at h
    omega
  · unfold measurementLoop failed
    rw [foldl_loopBody_errorLog]
    rfl

/-! ## C7: trimmed mean, median and mean -/

/-- C7 fails as stated. For the three successful durations `[1, 10, 10]` (not
all equal) `testHTTP2` prints a trimmed mean of 1, a median of 10 and a mean
of 7: the median exceeds the mean. -/
theorem trimmed_median_mean_counterexample :
    testHTTP2 3 (allSucceed [1, 10, 10]) = .ok ⟨7, 10, 1, 10, 10, 10, 1, 10, 0⟩ ∧
    ¬ (∀ r, testHTTP2 3 (allSucceed [1, 10, 10]) = .ok r →
        r.top20Avg ≤ r.medianDuration ∧ r.medianDuration ≤ r.avgDuration) := by
  have h : testHTTP2 3 (allSucceed [1, 10, 10]) = .ok ⟨7, 10, 1, 10, 10, 10, 1, 10, 0⟩ := by
    decide
  refine ⟨h, fun hall => ?_⟩
  have h2 := (hall _ h).2
  revert h2
  decide

/-- C7 as amended. For non-empty, non-negative recorded durations whose sum fits
`int64`, `testHTTP2` and `testHTTP3` return and the printed trimmed mean is at
most the printed median and at most the printed mean. (No order is claimed
between the median and the mean.) -/
theorem trimmed_le_median_and_mean (iterations : Nat) (get : Nat → Trial) (data : List Int)
    (hdata : (measurementLoop iterations get).durations = data) (hne : data ≠ [])
    (hnn : ∀ d ∈ data, 0 ≤ d) (hsum : data.sum < 9223372036854775808) :
    (∃ r, testHTTP2 iterations get = .ok r ∧
      r.top20Avg ≤ r.medianDuration ∧ r.top20Avg ≤ r.avgDuration) ∧
    (∃ r, testHTTP3 iterations get = .ok r ∧
      r.top20Avg ≤ r.medianDuration ∧ r.top20Avg ≤ r.avgDuration) := by
  have hne2 : (measurementLoop iterations get).durations ≠ [] := by rw [hdata]; exact hne
  have hpos : 0 < data.length := List.length_pos.mpr hne
  have hlen := sortSlice_length data
  have hs := sortSlice_sorted data
  have hperm := sortSlice_perm data
  have hnn2 : ∀ d ∈ sortSlice data, 0 ≤ d := fun d hd => hnn d (hperm.subset hd)
  have hk := top20Count_pos data.length
  have hkl := top20Count_le hpos
  have htake : ((sortSlice data).take (top20Count data.length)).sum < 9223372036854775808 := by
    have := sum_take_le_sum hnn2 (top20Count data.length)
    rw [hperm.sum_eq] at this
    omega
  obtain ⟨m, p90, p95, p99, t, hm, -, -, -, ht, hst⟩ :=
    statistics_explicit (measurementLoop iterations get) hne2
  rw [avgDuration_value iterations get data hdata hne hnn hsum] at hst
  rw [hdata] at hm ht
  rw [median_value data hne hnn hsum] at hm
  rw [top20Avg_value data hne hnn htake] at ht
  have hmv := Except.ok.inj hm
  have htv := Except.ok.inj ht
  have h1 : t ≤ m := by
    rw [← hmv, ← htv]
    have a := trimmed_le_kth hs hk (by omega)
    have b := kth_le_median hs (by omega)
    rw [hlen] at b
    exact le_trans a b
  have h2 : t ≤ data.sum / (data.length : Int) := by
    rw [← htv]
    have a := trimmed_le_mean hs hk (by omega)
    rw [hlen, hperm.sum_eq] at a
    exact a
  exact ⟨⟨_, hst, h1, h2⟩, ⟨_, hst, h1, h2⟩⟩

/-- C7 as amended, at the durations `[1, 10, 10]`. -/
theorem trimmed_le_median_and_mean_witness :
    (∃ r, testHTTP2 3 (allSucceed [1, 10, 10]) = .ok r ∧
      r.top20Avg ≤ r.medianDuration ∧ r.top20Avg ≤ r.avgDuration) ∧
    (∃ r, testHTTP3 3 (allSucceed [1, 10, 10]) = .ok r ∧
      r.top20Avg ≤ r.medianDuration ∧ r.top20Avg ≤ r.avgDuration) :=
  trimmed_le_median_and_mean 3 (allSucceed [1, 10, 10]) [1, 10, 10]
    (by decide) (by decide) (by decide) (by decide)

/-! ## C8: order independence -/

/-- C8. Two runs whose recorded durations are permutations of one another (and
non-empty) print the same summary: mean, median, trimmed mean, P90, P95, P99,
minimum, maximum and outlier count coincide; `median`, `top20Avg` and
`percentile` at every `p` (whole-number or any `float64`) agree on the two
lists. -/
theorem reduction_order_independent (iterations iterations' : Nat) (get get' : Nat → Trial)
    (data data' : List Int)
    (hdata : (measurementLoop iterations get).durations = data)
    (hdata' : (measurementLoop iterations' get').durations = data')
    (hne : data ≠ []) (hperm : data.Perm data') :
    (∃ r, testHTTP2 iterations get = .ok r ∧ testHTTP2 iterations' get' = .ok r) ∧
    (∃ r, testHTTP3 iterations get = .ok r ∧ testHTTP3 iterations' get' = .ok r) ∧
    median data = median data' ∧
    top20Avg data = top20Avg data' ∧
    (∀ p : Int, percentile data p = percentile data' p) ∧
    (∀ p : F64, percentileF64 data p = percentileF64 data' p) := by
  have hne2 : (measurementLoop iterations get).durations ≠ [] := by rw [hdata]; exact hne
  have hperm2 : (measurementLoop iterations get).durations.Perm
      (measurementLoop iterations' get').durations := by rw [hdata, hdata']; exact hperm
  have htot : (measurementLoop iterations get).totalDuration
      = (measurementLoop iterations' get').totalDuration := by
    rw [measurementLoop_total, measurementLoop_total, hperm2.sum_eq]
  have hcongr := statistics_congr hne2 hperm2 htot
  obtain ⟨_, _, _, _, _, -, -, -, -, -, hst⟩ :=
    statistics_explicit (measurementLoop iterations get) hne2
  refine ⟨⟨_, hst, ?_⟩, ⟨_, hst, ?_⟩, median_congr hperm, top20Avg_congr hperm,
    fun p => percentile_congr hperm p, fun p => percentileF64_congr hperm p⟩
  · unfold testHTTP2; rw [← hcongr]; exact hst
  · unfold testHTTP3; rw [← hcongr]; exact hst

/-- C8 at the durations `[30, 10, 20, 40, 200]` and their ascending rearrangement. -/
theorem reduction_order_independent_witness :
    (∃ r, testHTTP2 5 (allSucceed [30, 10, 20, 40, 200]) = .ok r ∧
      testHTTP2 5 (allSucceed [10, 20, 30, 40, 200]) = .ok r) ∧
    (∃ r, testHTTP3 5 (allSucceed [30, 10, 20, 40, 200]) = .ok r ∧
      testHTTP3 5 (allSucceed [10, 20, 30, 40, 200]) = .ok r) ∧
    median [30, 10, 20, 40, 200] = median [10, 20, 30, 40, 200] ∧
    top20Avg [30, 10, 20, 40, 200] = top20Avg [10, 20, 30, 40, 200] ∧
    (∀ p : Int, percentile [30, 10, 20, 40, 200] p = percentile [10, 20, 30, 40, 200] p) ∧
    (∀ p : F64, percentileF64 [30, 10, 20, 40, 200] p
      = percentileF64 [10, 20, 30, 40, 200] p) :=
  reduction_order_independent 5 5 (allSucceed [30, 10, 20, 40, 200])
    (allSucceed [10, 20, 30, 40, 200]) [30, 10, 20, 40, 200] [10, 20, 30, 40, 200]
    (by decide) (by decide) (by decide) (by decide)

/-! ## C9: totals and throughput -/

/-- C9. In `testBandwidth` and in `main` of http3_client.go the accumulated
duration and byte count are the sums over exactly the completed trials (request
and body drain both succeeded), provided those sums fit `int64`; a trial with a
connection error or a read error adds neither time nor bytes. The reported
throughput is the byte total divided by the duration total in seconds and by
1024 (a non-finite value when the duration total is zero). `testBandwidth`
reports for `iterations ≥ 1`, http3_client.go when a trial completed. -/
theorem totals_over_completed_trials (iterations : Nat) (get : Nat → Trial)
    (hT : -9223372036854775808 ≤ completedTime iterations get ∧
      completedTime iterations get < 9223372036854775808)
    (hB : -9223372036854775808 ≤ completedBytes iterations get ∧
      completedBytes iterations get < 9223372036854775808) :
    ((bandwidthLoop iterations get).totalDuration = completedTime iterations get ∧
     (bandwidthLoop iterations get).totalBytes = completedBytes iterations get ∧
     (0 < iterations → ∃ r, testBandwidth iterations get = .ok r ∧
        r.totalBytes = completedBytes iterations get ∧
        r.avgThroughput =
          if completedTime iterations get = 0 then none
          else some ((completedBytes iterations get : ℚ)
            / ((completedTime iterations get : ℚ) / 1000000000) / 1024))) ∧
    ((clientLoop iterations get).totalTime = completedTime iterations get ∧
     (clientLoop iterations get).totalBytes = completedBytes iterations get ∧
     (completed iterations get ≠ [] → ∃ r, Http3Client.main iterations get = some r ∧
        r.successCount = (completed iterations get).length ∧
        r.totalBytes = completedBytes iterations get ∧
        r.avgSpeed =
          if completedTime iterations get = 0 then none
          else some ((completedBytes iterations get : ℚ)
            / ((completedTime iterations get : ℚ) / 1000000000) / 1024))) := by
  obtain ⟨b1, b2⟩ := bandwidthLoop_totals iterations get
  obtain ⟨c1, c2, c3⟩ := clientLoop_totals iterations get
  rw [wrap64_eq hT.1 hT.2] at b1 c1
  rw [wrap64_eq hB.1 hB.2] at b2 c2
  refine ⟨⟨b1, b2, ?_⟩, ⟨c1, c2, ?_⟩⟩
  · intro hit
    unfold testBandwidth
    dsimp only
    rw [goDiv_explicit _ (show ((iterations : Nat) : Int) ≠ 0 by omega)]
    refine ⟨_, rfl, b2, ?_⟩
    show kbPerSecond _ _ = _
    rw [b1, b2]
    rfl
  · intro hne
    have hpos : 0 < (completed iterations get).length := List.length_pos.mpr hne
    unfold Http3Client.main
    simp only
    rw [if_pos (by rw [c3]; exact hpos)]
    refine ⟨_, rfl, c3, c2, ?_⟩
    show kbPerSecond _ _ = _
    rw [c1, c2]
    rfl

/-- C9 at three trials of which only the first completes (5 ms, 1024 bytes): the
7 ms of the connection error and the 3 ms and 512 bytes of the read error are
left out. -/
theorem totals_over_completed_trials_witness :
    ((bandwidthLoop 3 oneOfThreeCompletes).totalDuration = 5000000 ∧
     (bandwidthLoop 3 oneOfThreeCompletes).totalBytes = 1024 ∧
     (∃ r, testBandwidth 3 oneOfThreeCompletes = .ok r ∧
        r.totalBytes = 1024 ∧
        r.avgThroughput = some ((1024 : ℚ) / ((5000000 : ℚ) / 1000000000) / 1024))) ∧
    ((clientLoop 3 oneOfThreeCompletes).totalTime = 5000000 ∧
     (clientLoop 3 oneOfThreeCompletes).totalBytes = 1024 ∧
     (∃ r, Http3Client.main 3 oneOfThreeCompletes = some r ∧
        r.successCount = 1 ∧
        r.totalBytes = 1024 ∧
        r.avgSpeed = some ((1024 : ℚ) / ((5000000 : ℚ) / 1000000000) / 1024))) :=
  have h := totals_over_completed_trials 3 oneOfThreeCompletes (by decide) (by decide)
  ⟨⟨h.1.1, h.1.2.1, h.1.2.2 (by decide)⟩, ⟨h.2.1, h.2.2.1, h.2.2.2 (by decide)⟩⟩

/-! ## C10: scheduling-delay count -/

/-- C10 fails as stated. When the first of two trials fails to connect while the
process is preempted and the second succeeds unpreempted, one trial of the two
has a positive involuntary context-switch delta, yet the reported count is 0
(0 %): the delta of a failed trial is never looked at. -/
theorem scheduling_delay_counterexample :
    (preempted 2 failedWhilePreempted).length = 1 ∧
    testHTTP2WithSchedulerAnalysis 2 failedWhilePreempted
      = .ok ⟨100, 100, 100, 100, 100, 100, 0, 2, ((0 : Nat) : ℚ) / ((2 : Nat) : ℚ) * 100⟩ ∧
    ¬ (∀ r, testHTTP2WithSchedulerAnalysis 2 failedWhilePreempted = .ok r →
        r.schedulingDelayCount = (preempted 2 failedWhilePreempted).length) := by
  have h : testHTTP2WithSchedulerAnalysis 2 failedWhilePreempted
      = .ok ⟨100, 100, 100, 100, 100, 100, 0, 2, ((0 : Nat) : ℚ) / ((2 : Nat) : ℚ) * 100⟩ := by
    rfl
  refine ⟨by decide, h, fun hall => ?_⟩
  have h2 := hall _ h
  revert h2
  decide

/-- C10 as amended. When at least one trial succeeds, the two functions of
scheduler_analysis.go return, and the reported scheduling-delay count is the
number of successful trials whose involuntary context-switch delta is positive;
the reported percentage is that count divided by `iterations` (all trials)
times 100. -/
theorem scheduling_delay_count (iterations : Nat) (get : Nat → Trial)
    (hsucc : ∃ i, i < iterations ∧ (get i).err = false) :
    (∃ r, testHTTP2WithSchedulerAnalysis iterations get = .ok r ∧
      r.schedulingDelayCount = (preemptedSucceeded iterations get).length ∧
      r.iterations = iterations ∧
      r.schedulingDelayPercent
        = ((preemptedSucceeded iterations get).length : ℚ) / (iterations : ℚ) * 100) ∧
    (∃ r, testHTTP3WithSchedulerAnalysis iterations get = .ok r ∧
      r.schedulingDelayCount = (preemptedSucceeded iterations get).length ∧
      r.iterations = iterations ∧
      r.schedulingDelayPercent
        = ((preemptedSucceeded iterations get).length : ℚ) / (iterations : ℚ) * 100) := by
  obtain ⟨i, hi, herr⟩ := hsucc
  have hne : (schedLoop iterations get).durations ≠ [] := by
    rw [schedLoop_durations]
    intro h
    exact succeeded_ne_nil hi herr (List.map_eq_nil_iff.mp h)
  obtain ⟨m, p90, p95, p99, t, hst⟩ :=
    schedStatistics_explicit iterations (schedLoop iterations get) hne
  have hlen : (schedLoop iterations get).schedulingDelays.length
      = (preemptedSucceeded iterations get).length := by
    rw [schedLoop_delays, List.length_map]
  rw [hlen] at hst
  exact ⟨⟨_, hst, rfl, rfl, rfl⟩, ⟨_, hst, rfl, rfl, rfl⟩⟩

/-- C10 as amended, at the two trials of the counterexample: the count is 0. -/
theorem scheduling_delay_count_witness :
    (∃ r, testHTTP2WithSchedulerAnalysis 2 failedWhilePreempted = .ok r ∧
      r.schedulingDelayCount = 0 ∧ r.iterations = 2 ∧
      r.schedulingDelayPercent = ((0 : Nat) : ℚ) / ((2 : Nat) : ℚ) * 100) ∧
    (∃ r, testHTTP3WithSchedulerAnalysis 2 failedWhilePreempted = .ok r ∧
      r.schedulingDelayCount = 0 ∧ r.iterations = 2 ∧
      r.schedulingDelayPercent = ((0 : Nat) : ℚ) / ((2 : Nat) : ℚ) * 100) :=
  scheduling_delay_count 2 failedWhilePreempted ⟨1, by decide, rfl⟩

/-! ## C11: read errors in benchmark.go -/

/-- C11 fails as stated. When the request of trial 2 of 3 succeeds after 500 ns
and the drain of its body then fails, the loop of `testHTTP2`/`testHTTP3`
still appends the 500 ns to `durations` and adds them to `totalDuration`. -/
theorem drain_error_counterexample :
    (secondDrainFails 1).err = false ∧ (secondDrainFails 1).copyErr = true ∧
    (measurementLoop 3 secondDrainFails).durations = [100, 500, 300] ∧
    (measurementLoop 3 secondDrainFails).totalDuration = 900 ∧
    (measurementLoop 3 secondDrainFails).errorLog = [] := by
  decide

/-- C11 as amended. In the loop of `testHTTP2`/`testHTTP3` of benchmark.go only
an error of `client.Get` makes a trial a failure. A trial whose request
succeeds is a success whether or not its body can be drained: one iteration
appends its elapsed time to `durations` and adds it to `totalDuration`, and
over the whole loop `durations` holds the elapsed times of all trials whose
request succeeded, read errors included, `totalDuration` being their sum in
`int64`. -/
theorem drain_error_recorded (iterations : Nat) (get : Nat → Trial) :
    (∀ (st : LoopState) (i : Nat) (t : Trial), t.err = false →
      (loopBody st i t).durations = st.durations ++ [t.elapsed] ∧
      (loopBody st i t).totalDuration = wrap64 (st.totalDuration + t.elapsed) ∧
      (loopBody st i t).errorLog = st.errorLog) ∧
    (measurementLoop iterations get).durations
      = ((List.range iterations).filter (fun i => !(get i).err)).map
          (fun i => (get i).elapsed) ∧
    (measurementLoop iterations get).totalDuration
      = wrap64 ((((List.range iterations).filter (fun i => !(get i).err)).map
          (fun i => (get i).elapsed)).sum) ∧
    (∀ i, i < iterations → (get i).err = false → (get i).copyErr = true →
      (get i).elapsed ∈ (measurementLoop iterations get).durations) := by
  have hd := measurementLoop_durations iterations get
  unfold succeeded at hd
  refine ⟨?_, hd, ?_, ?_⟩
  · intro st i t herr
    rw [loopBody_durations, loopBody_errorLog, herr]
    refine ⟨rfl, ?_, by simp⟩
    unfold loopBody
    rw [herr]
    rfl
  · rw [measurementLoop_total, hd]
  · intro i hi herr _
    rw [hd, List.mem_map]
    refine ⟨i, ?_, rfl⟩
    rw [List.mem_filter, List.mem_range]
    exact ⟨hi, by simp [herr]⟩

/-! ## C12: percentile outside `[0, 100]` -/

set_option maxRecDepth 100000 in
/-- C12 fails as stated. On the one-element list `[5]` with `p = -100` the
computed index is `-1`; the only clamp is `index >= len`, so the negative
index reaches `sorted[index]` and the call panics. With `p = 1e21` the
quotient `1e19` does not fit `int64`, the conversion yields `-2^63` (amd64),
and the call panics as well. -/
theorem percentile_negative_counterexample :
    floatIndex 1 (F64.ofInt (-100)) = -1 ∧
    percentileF64 [5] (F64.ofInt (-100)) = .error Panic.indexOutOfRange ∧
    floatIndex 1 (F64.ofInt 1000000000000000000000) = -9223372036854775808 ∧
    percentileF64 [5] (F64.ofInt 1000000000000000000000) = .error Panic.indexOutOfRange := by
  decide

/-- C12 as amended. For a non-empty list of `n` durations and any `float64` `p`,
`percentile` clamps the index `int(float64(n) * p / 100.0)` on the high side
only. Whenever that index is non-negative the call does not panic and returns
an element of `data`, the largest one when the index is `n` or more; this is
so for every finite `p ≥ 0` with `n * p ≤ 2^62`, whatever its size relative to
100. Whenever the index is negative it is not clamped and the call panics with
an index out of range; this is so for every whole-number `p` with
`n * p ≤ -100`. (`n < 2^53` in the last two statements.) -/
theorem percentile_clamp_high_only (data : List Int) (hne : data ≠ []) :
    (∀ p : F64, 0 ≤ floatIndex (data.length : Int) p →
      ∃ x, x ∈ data ∧ percentileF64 data p = .ok x) ∧
    (∀ p : F64, (data.length : Int) ≤ floatIndex (data.length : Int) p →
      percentileF64 data p = .ok ((sortSlice data).getD (data.length - 1) 0)) ∧
    (∀ p : F64, floatIndex (data.length : Int) p < 0 →
      percentileF64 data p = .error Panic.indexOutOfRange) ∧
    (∀ (m : Nat) (e : Int), data.length < 9007199254740992 →
      F64.magLE (data.length * m) e (2 ^ 62) →
      ∃ x, x ∈ data ∧ percentileF64 data (.finite false m e) = .ok x) ∧
    (∀ p : Int, data.length < 9007199254740992 → p.natAbs < 9007199254740992 →
      data.length * p.natAbs < 9007199254740992 → (data.length : Int) * p ≤ -100 →
      percentileF64 data (F64.ofInt p) = .error Panic.indexOutOfRange) := by
  have hpos : 0 < data.length := List.length_pos.mpr hne
  have hret : ∀ p : F64, 0 ≤ floatIndex (data.length : Int) p →
      ∃ x, x ∈ data ∧ percentileF64 data p = .ok x := by
    intro p h
    exact ⟨_, sortSlice_getD_mem data (by omega), percentileF64_of_nonneg data p hne h⟩
  refine ⟨hret, ?_, fun p h => percentileF64_of_neg data p h, ?_, ?_⟩
  · intro p h
    rw [percentileF64_of_nonneg data p hne (by omega)]
    congr 2
    omega
  · intro m e hn hle
    exact hret _ (floatIndex_nonneg data.length m e hn hle)
  · intro p hn hp h hle
    apply percentileF64_of_neg
    rw [floatIndex_whole data.length p hn hp h, tdiv_hundred, if_neg (by omega)]
    omega

set_option maxRecDepth 100000 in
/-- C12 as amended, on the durations `[30, 10, 20]`: `p = 250` yields the
largest, `p = -20` the smallest, `p = -100` and `p = 1e21` panic. -/
theorem percentile_clamp_high_only_witness :
    percentileF64 [30, 10, 20] (F64.ofInt 250) = .ok 30 ∧
    (∃ x, x ∈ [30, 10, 20] ∧ percentileF64 [30, 10, 20] (.finite false 250 0) = .ok x) ∧
    (∃ x, x ∈ [30, 10, 20] ∧ percentileF64 [30, 10, 20] (F64.ofInt (-20)) = .ok x) ∧
    percentileF64 [30, 10, 20] (F64.ofInt (-100)) = .error Panic.indexOutOfRange ∧
    percentileF64 [30, 10, 20] (F64.ofInt 1000000000000000000000)
      = .error Panic.indexOutOfRange :=
  have h := percentile_clamp_high_only [30, 10, 20] (by decide)
  ⟨h.2.1 (F64.ofInt 250) (by decide),
   h.2.2.2.1 250 0 (by decide) (by decide),
   h.1 (F64.ofInt (-20)) (by decide),
   h.2.2.2.2 (-100) (by decide) (by decide) (by decide) (by decide),
   h.2.2.1 (F64.ofInt 1000000000000000000000) (by decide)⟩

/-! ## C13: order of the printed values -/

/-- C14. For `iterations ≥ 1` and a total elapsed time of the completed trials
that fits `int64`, `testBandwidth` returns and its `avgDuration` is that total
divided (Go integer division) by `iterations`, not by the number of completed
trials. Hence it is the integer mean of the completed trials when no trial
failed, and when `k < iterations` trials complete, each after `d > 0`, it is
`k * d / iterations`, which is less than `d`. -/
theorem avgDuration_over_iterations (iterations : Nat) (get : Nat → Trial)
    (hit : 0 < iterations)
    (hT : -9223372036854775808 ≤ completedTime iterations get ∧
      completedTime iterations get < 9223372036854775808) :
    ∃ r, testBandwidth iterations get = .ok r ∧
      r.avgDuration = Int.tdiv (completedTime iterations get) (iterations : Int) ∧
      ((completed iterations get).length = iterations →
        r.avgDuration = Int.tdiv (completedTime iterations get)
          ((completed iterations get).length : Int)) ∧
      (∀ d : Int, 0 < d → (∀ i ∈ completed iterations get, (get i).elapsed = d) →
        (completed iterations get).length < iterations →
        r.avgDuration = ((completed iterations get).length : Int) * d / (iterations : Int) ∧
        r.avgDuration < d) := by
  obtain ⟨r, hr, havg⟩ := testBandwidth_avgDuration iterations get hit hT
  refine ⟨r, hr, havg, ?_, ?_⟩
  · intro hall
    rw [havg, hall]
  · intro d hd hconst hk
    have hsum : completedTime iterations get
        = ((completed iterations get).length : Int) * d := by
      unfold completedTime
      exact sum_map_const (fun i => (get i).elapsed) d _ hconst
    have h0 : 0 ≤ ((completed iterations get).length : Int) * d :=
      Int.mul_nonneg (by omega) (by omega)
    rw [havg, hsum, Int.tdiv_eq_ediv h0 (by omega)]
    refine ⟨rfl, ?_⟩
    apply Int.ediv_lt_of_lt_mul (by omega)
    have hk2 : ((completed iterations get).length : Int) < (iterations : Int) := by omega
    rw [mul_comm d]
    exact mul_lt_mul_of_pos_right hk2 hd

/-- C14 at three trials of which one completes after 5 ms (the reported
average is 5 ms / 3, below 5 ms), and at three trials that all complete after
100, 200 and 300 ns (the reported average is their mean, 200 ns). -/
theorem avgDuration_over_iterations_witness :
    (∃ r, testBandwidth 3 oneOfThreeCompletes = .ok r ∧
      r.avgDuration = 1666666 ∧ r.avgDuration < 5000000) ∧
    (∃ r, testBandwidth 3 (allSucceed [100, 200, 300]) = .ok r ∧ r.avgDuration = 200) :=
  ⟨match avgDuration_over_iterations 3 oneOfThreeCompletes (by decide) (by decide) with
    | ⟨r, h1, h2, _, h4⟩ => ⟨r, h1, h2, (h4 5000000 (by decide) (by decide) (by decide)).2⟩,
   match avgDuration_over_iterations 3 (allSucceed [100, 200, 300]) (by decide) (by decide) with
    | ⟨r, h1, _, h3, _⟩ => ⟨r, h1, h3 (by decide)⟩⟩

end Benchmark
